import Mathlib

/-!
Verification of the backtest-engine orchestration layer of this repository
(`inv_trader/backtest/engine.pyx`).  The `BacktestEngine` class is embedded
shallowly: its construction (`__init__`), `run` main loop, `reset` and the
strategy clock/logger replacement are translated into pure Lean functions over
explicit state records.  Timestamps are naturals, money/quantity amounts are
integers (the source uses exact decimal objects).  Components of the engine
whose bodies are not part of the source sample (`BacktestDataClient`,
`BacktestExecClient`, `Portfolio`, `TestClock`) are modelled from the spec and
marked as such in their doc comments.
-/

namespace NT

/-- A quoted tick for an instrument: bid/ask prices at an instant
(`inv_trader.model.objects.Tick`, fields as used by `engine.pyx`). -/
structure Tick where
  symbol : Nat
  bid : Int
  ask : Int
  timestamp : Nat
deriving DecidableEq, Repr

/-- A one-minute OHLCV bar, reduced to the fields the engine consumes
(symbol, a representative close price, and the bar timestamp). -/
structure Bar where
  symbol : Nat
  close : Int
  timestamp : Nat
deriving DecidableEq, Repr

/-- Order side. -/
inductive OrderSide where
  | buy
  | sell
deriving DecidableEq, Repr

/-- Order type (market or limit; the engine sample exercises no others). -/
inductive OrderType where
  | market
  | limit
deriving DecidableEq, Repr

/-- An order issued by a strategy (spec section 3). -/
structure Order where
  orderId : Nat
  symbol : Nat
  side : OrderSide
  otype : OrderType
  quantity : Int
  limitPrice : Int
deriving DecidableEq, Repr

/-- An immutable fill record (spec section 3). -/
structure Fill where
  fillId : Nat
  orderId : Nat
  symbol : Nat
  side : OrderSide
  quantity : Int
  price : Int
  commission : Int
  timestamp : Nat
deriving DecidableEq, Repr

/-- Modelled from the spec: `inv_trader.backtest.models.FillModel` is not in
the source sample.  Spec section 3: a policy object parameterized by
probabilities/slippage rules, deterministic given a seeded random source. -/
structure FillModel where
  seed : Nat
  slippageProb : Nat
deriving DecidableEq, Repr

/-- Modelled from the spec: `inv_trader.common.account.Account` is not in the
source sample.  Spec section 3: single currency balance, realized PnL
accumulator, total commissions. -/
structure Account where
  currency : Nat
  cashBalance : Int
  realizedPnl : Int
  totalCommissions : Int
deriving DecidableEq, Repr

/-- Errors of the portfolio state machine (spec section 7). -/
inductive PortfolioError where
  | duplicateFill
deriving DecidableEq, Repr

/-- A per-instrument position: signed net quantity and the signed open cost
(quantity times average entry price, kept exactly). -/
structure Position where
  symbol : Nat
  quantity : Int
  cost : Int
deriving DecidableEq, Repr

/-- Modelled from the spec: `inv_trader.portfolio.portfolio.Portfolio` is not
in the source sample.  Spec section 4.5: positions plus the account, with an
idempotence guard on previously seen fill identifiers. -/
structure Portfolio where
  seenFillIds : List Nat
  positions : List Position
  account : Account
deriving DecidableEq, Repr

/-- Signed quantity of a fill: buys positive, sells negative. -/
def signedQty (f : Fill) : Int :=
  match f.side with
  | .buy => f.quantity
  | .sell => -f.quantity

/-- Modelled from the spec (section 4.5): weighted-average-price position
accounting.  Arguments are current signed quantity `q`, current signed open
cost `c`, signed fill quantity `fq` and fill price.  Returns the new quantity,
new cost and the realized PnL booked by this fill (integer division stands in
for the exact rational average). -/
def applyToPosition (q c fq price : Int) : Int × Int × Int :=
  if q = 0 then (fq, fq * price, 0)
  else if (0 < q ∧ 0 < fq) ∨ (q < 0 ∧ fq < 0) then
    (q + fq, c + fq * price, 0)
  else if fq.natAbs ≤ q.natAbs then
    let closedCost := (fq * c) / q
    (q + fq, c + closedCost, closedCost - fq * price)
  else
    (q + fq, (q + fq) * price, q * price - c)

/-- Current (quantity, cost) of the position for a symbol, `(0, 0)` if none. -/
def Portfolio.findPosition (p : Portfolio) (symbol : Nat) : Int × Int :=
  match p.positions.find? (fun pos => pos.symbol = symbol) with
  | some pos => (pos.quantity, pos.cost)
  | none => (0, 0)

/-- Modelled from the spec (section 4.5): `apply(Fill)` updates the relevant
position and books realized PnL/commissions to the account; a fill whose
identifier was already seen is rejected with `DuplicateFill` and the state is
returned unchanged.  A position whose net quantity returns to zero is
removed. -/
def Portfolio.apply (p : Portfolio) (f : Fill) : Portfolio × Option PortfolioError :=
  if f.fillId ∈ p.seenFillIds then (p, some .duplicateFill)
  else
    let qc := p.findPosition f.symbol
    let res := applyToPosition qc.1 qc.2 (signedQty f) f.price
    let kept := p.positions.filter (fun pos => pos.symbol ≠ f.symbol)
    let positions := if res.1 = 0 then kept else ⟨f.symbol, res.1, res.2.1⟩ :: kept
    let account :=
      { p.account with
        cashBalance := p.account.cashBalance + res.2.2 - f.commission
        realizedPnl := p.account.realizedPnl + res.2.2
        totalCommissions := p.account.totalCommissions + f.commission }
    ({ seenFillIds := f.fillId :: p.seenFillIds
       positions := positions
       account := account }, none)

/-- Modelled from the spec: linear congruential step for the seeded random
source used by the fill model (spec section 3: fills are deterministic given
a seeded random source). -/
def lcg (s : Nat) : Nat := (s * 1103515245 + 12345) % 1073741824

/-- Modelled from the spec: draw the slippage for one order evaluation from
the seeded random source, returning the slippage and the advanced source. -/
def FillModel.slippage (fm : FillModel) (rng : Nat) : Int × Nat :=
  let r := lcg rng
  (if r % 100 < fm.slippageProb then 1 else 0, r)

/-- Modelled from the spec (section 4.3): the execution price of an order
against a price snapshot — a market order fills at the touch adjusted by the
slippage, a limit order fills only once the market price crosses the limit,
at the better of the limit and market prices. -/
def fillPriceFor (o : Order) (bid ask slip : Int) : Option Int :=
  match o.otype, o.side with
  | .market, .buy => some (ask + slip)
  | .market, .sell => some (bid - slip)
  | .limit, .buy => if ask ≤ o.limitPrice then some (min o.limitPrice ask) else none
  | .limit, .sell => if o.limitPrice ≤ bid then some (max o.limitPrice bid) else none

/-- Modelled from the spec (section 4.3): commission as a function of the
notional value and a configured basis-point rate. -/
def commissionFor (rateBp notional : Int) : Int := notional * rateBp / 10000

/-- Modelled from the spec: `inv_trader.backtest.execution.BacktestExecClient`
is not in the source sample.  It holds the fill model, commission
configuration, resting orders, the produced fills, and the portfolio/account
it applies fills to; `clockId` records which clock object it was constructed
with. -/
structure ExecClient where
  clockId : Nat
  fillModel : FillModel
  commissionRateBp : Int
  startingCapital : Int
  accountCurrency : Nat
  rng : Nat
  nextFillId : Nat
  restingOrders : List Order
  fills : List Fill
  portfolio : Portfolio
  eventCount : Nat
deriving DecidableEq, Repr

/-- A fresh portfolio holding only the starting capital. -/
def emptyPortfolio (currency : Nat) (startingCapital : Int) : Portfolio :=
  { seenFillIds := []
    positions := []
    account := { currency := currency, cashBalance := startingCapital,
                 realizedPnl := 0, totalCommissions := 0 } }

/-- Record a produced fill and apply it to the portfolio. -/
def ExecClient.applyFill (ec : ExecClient) (f : Fill) : ExecClient :=
  { ec with portfolio := (ec.portfolio.apply f).1, fills := ec.fills ++ [f] }

/-- Modelled from the spec (section 4.3): evaluate one resting order against a
price snapshot for `symbol`; a filled order is consumed, an unfilled one keeps
resting. -/
def evalOrder (bid ask : Int) (ts : Nat) (symbol : Nat)
    (acc : ExecClient × List Order) (o : Order) : ExecClient × List Order :=
  if o.symbol = symbol then
    match fillPriceFor o bid ask ((acc.1.fillModel.slippage acc.1.rng).1) with
    | some px =>
        (ExecClient.applyFill
          { acc.1 with
            rng := (acc.1.fillModel.slippage acc.1.rng).2
            nextFillId := acc.1.nextFillId + 1 }
          { fillId := acc.1.nextFillId, orderId := o.orderId, symbol := o.symbol,
            side := o.side, quantity := o.quantity, price := px,
            commission := commissionFor acc.1.commissionRateBp (px * o.quantity),
            timestamp := ts }, acc.2)
    | none =>
        ({ acc.1 with rng := (acc.1.fillModel.slippage acc.1.rng).2 }, acc.2 ++ [o])
  else (acc.1, acc.2 ++ [o])

/-- Modelled from the spec (section 4.3): deliver a tick to the execution
client — re-evaluate all resting orders for the tick's instrument against the
new snapshot. -/
def ExecClient.processTick (ec : ExecClient) (t : Tick) : ExecClient :=
  let r := ec.restingOrders.foldl (evalOrder t.bid t.ask t.timestamp t.symbol)
    ({ ec with eventCount := ec.eventCount + 1 }, [])
  { r.1 with restingOrders := r.2 }

/-- Modelled from the spec: deliver a minute bar to the execution client,
re-evaluating resting orders against the bar's price. -/
def ExecClient.processBar (ec : ExecClient) (b : Bar) : ExecClient :=
  let r := ec.restingOrders.foldl (evalOrder b.close b.close b.timestamp b.symbol)
    ({ ec with eventCount := ec.eventCount + 1 }, [])
  { r.1 with restingOrders := r.2 }

/-- Modelled from the spec: `BacktestExecClient.reset` is not in the source
sample; per spec section 6 it restores the pre-run execution state (empty
portfolio, no resting orders, pristine random source) while retaining the
fill-model and commission configuration. -/
def ExecClient.reset (ec : ExecClient) : ExecClient :=
  { ec with
    rng := ec.fillModel.seed
    nextFillId := 0
    restingOrders := []
    fills := []
    eventCount := 0
    portfolio := emptyPortfolio ec.accountCurrency ec.startingCapital }

/-- `BacktestExecClient.change_fill_model` (called from engine.pyx line 193):
install the new fill model together with its seed. -/
def ExecClient.changeFillModel (ec : ExecClient) (fm : FillModel) : ExecClient :=
  { ec with fillModel := fm, rng := fm.seed }

/-- Modelled from the spec: `inv_trader.backtest.data.BacktestDataClient` is
not in the source sample.  It owns the historical tick/bar series, the merged
minute index used by the run-range guards, the remaining (not yet iterated)
data, and the data already delivered to subscribers; `use_ticks` selects the
tick execution-resolution mode, chosen at construction by the presence of
tick data. -/
structure DataClient where
  clockId : Nat
  use_ticks : Bool
  initTicks : List Tick
  initBars : List Bar
  ticks : List Tick
  execBars : List Bar
  dataBars : List Bar
  processedTicks : List Tick
  processedBars : List Bar
  minuteIndex : List Nat
deriving DecidableEq, Repr

/-- Modelled from the spec: construction of the data client from the
pre-sorted historical series. -/
def mkDataClient (ticks : List Tick) (bars : List Bar) : DataClient :=
  { clockId := 1
    use_ticks := !ticks.isEmpty
    initTicks := ticks
    initBars := bars
    ticks := ticks
    execBars := bars
    dataBars := bars
    processedTicks := []
    processedBars := []
    minuteIndex := bars.map (fun b => b.timestamp) }

/-- Modelled from the spec: deliver a tick to the data client's subscribers
(the registered strategies read market data through it). -/
def DataClient.processTick (dc : DataClient) (t : Tick) : DataClient :=
  { dc with processedTicks := dc.processedTicks ++ [t] }

/-- Modelled from the spec: deliver the due bars to the data client's
subscribers. -/
def DataClient.processBars (dc : DataClient) (bs : List Bar) : DataClient :=
  { dc with processedBars := dc.processedBars ++ bs }

/-- Modelled from the spec and the engine's comment at engine.pyx line 214:
`set_initial_iteration(start, time_step)` positions the data iteration at the
run's start (data strictly before `start` is skipped); the accompanying clock
assignment to the start time is performed by the caller's state. -/
def DataClient.setInitialIteration (dc : DataClient) (start : Nat) : DataClient :=
  { dc with
    ticks := dc.ticks.dropWhile (fun t => t.timestamp < start)
    execBars := dc.execBars.dropWhile (fun b => b.timestamp < start)
    dataBars := dc.dataBars.dropWhile (fun b => b.timestamp < start) }

/-- Modelled from the spec: `BacktestDataClient.reset` is not in the source
sample; per spec section 6 it rewinds the historical data to the pre-run
state without discarding it. -/
def DataClient.reset (dc : DataClient) : DataClient :=
  { dc with
    ticks := dc.initTicks
    execBars := dc.initBars
    dataBars := dc.initBars
    processedTicks := []
    processedBars := [] }

/-- The engine configuration fields used by the simulation core
(`inv_trader.backtest.config.BacktestConfig`). -/
structure BacktestConfig where
  startingCapital : Int
  accountCurrency : Nat
  commissionRateBp : Int
deriving DecidableEq, Repr

/-- A registered strategy: its identifier and the identifier of the clock
object it currently holds.  Clock id 0 denotes the wall `LiveClock`; positive
ids denote `TestClock` instances, allocated fresh in increasing order. -/
structure StrategyRec where
  sid : Nat
  clockId : Nat
deriving DecidableEq, Repr

/-- Give each strategy in the list a fresh `TestClock` (a new clock id),
as `strategy.change_clock(TestClock())` does at engine.pyx lines 138 and
429. -/
def mkStrategyRecs (sids : List Nat) (next : Nat) : List StrategyRec :=
  match sids with
  | [] => []
  | s :: rest => ⟨s, next⟩ :: mkStrategyRecs rest (next + 1)

/-- Identifier of the engine's wall clock (`LiveClock`, engine.pyx line 77). -/
def wallClockId : Nat := 0

/-- Errors raised by `BacktestEngine.run`'s range preconditions (engine.pyx
lines 188-190 raise `ValueError` via `Precondition.true`; the spec names this
failure `InvalidRange`). -/
inductive EngineError where
  | invalidRange
deriving DecidableEq, Repr

/-- The `BacktestEngine` state (engine.pyx).  `testClock` is the current time
of the engine-owned `TestClock` (id `testClockId`); `runStartTime` is the
start epoch of the most recent run. -/
structure Engine where
  config : BacktestConfig
  instruments : List Nat
  createdTime : Nat
  testClock : Nat
  testClockId : Nat
  portfolioClockId : Nat
  iteration : Nat
  dataClient : DataClient
  execClient : ExecClient
  strategies : List StrategyRec
  nextClockId : Nat
  runStartTime : Nat
  lastRunStarted : Nat
deriving DecidableEq, Repr

/-- `BacktestEngine.__init__` (engine.pyx lines 52-153): reads the wall clock
for `created_time`, initializes the test clock to the wall time (line 81),
zeroes the iteration counter, builds account/portfolio/data/exec clients all
against the single engine test clock (id 1), and replaces every strategy's
clock with a fresh separate `TestClock` (line 138). -/
def mkEngine (instruments : List Nat) (ticks : List Tick) (bars : List Bar)
    (sids : List Nat) (fillModel : FillModel) (config : BacktestConfig)
    (wallNow : Nat) : Engine :=
  { config := config
    instruments := instruments
    createdTime := wallNow
    testClock := wallNow
    testClockId := 1
    portfolioClockId := 1
    iteration := 0
    dataClient := mkDataClient ticks bars
    execClient :=
      { clockId := 1
        fillModel := fillModel
        commissionRateBp := config.commissionRateBp
        startingCapital := config.startingCapital
        accountCurrency := config.accountCurrency
        rng := fillModel.seed
        nextFillId := 0
        restingOrders := []
        fills := []
        portfolio := emptyPortfolio config.accountCurrency config.startingCapital
        eventCount := 0 }
    strategies := mkStrategyRecs sids 2
    nextClockId := 2 + sids.length
    runStartTime := wallNow
    lastRunStarted := wallNow }

/-- The state threaded through the main backtest loop: exactly the engine
fields the loop body mutates (data client, execution client, test clock,
iteration counter). -/
structure RunState where
  dataClient : DataClient
  execClient : ExecClient
  testClock : Nat
  iteration : Nat
deriving DecidableEq, Repr

/-- Engine.run lines 226-228: in bar (non-tick) execution mode the due minute
bars are delivered to the execution client at the top of the iteration. -/
def barPhase (ec : ExecClient) (dc : DataClient) (time : Nat) :
    ExecClient × DataClient :=
  if dc.use_ticks then (ec, dc)
  else
    ((dc.execBars.takeWhile (fun b => b.timestamp ≤ time)).foldl ExecClient.processBar ec,
      { dc with execBars := dc.execBars.dropWhile (fun b => b.timestamp ≤ time) })

/-- Engine.run lines 230-235, the body of the tick loop: set the test clock to
the tick's timestamp, deliver the tick to the execution client in tick mode,
let each strategy iterate (strategy-issued orders come to rest with the
execution client), then let the data client process the tick. -/
def tickStep (sids : List Nat) (orders : Nat → Nat → List Order)
    (acc : ExecClient × DataClient × Nat) (t : Tick) :
    ExecClient × DataClient × Nat :=
  let ec := acc.1
  let dc := acc.2.1
  let ec1 := if dc.use_ticks then ec.processTick t else ec
  let ec2 := sids.foldl
    (fun e sid => { e with restingOrders := e.restingOrders ++ orders sid t.timestamp }) ec1
  (ec2, dc.processTick t, t.timestamp)

/-- One iteration of the main backtest loop body (engine.pyx lines 226-237):
bar phase, tick loop over the due ticks, clock to the step boundary, due bars
to the data client.  The iteration counter is untouched here. -/
def stepRunState (sids : List Nat) (orders : Nat → Nat → List Order)
    (rs : RunState) (time : Nat) : RunState :=
  let p := barPhase rs.execClient rs.dataClient time
  let q := ((p.2.ticks.takeWhile (fun t => t.timestamp ≤ time)).foldl (tickStep sids orders)
    (p.1, { p.2 with ticks := p.2.ticks.dropWhile (fun t => t.timestamp ≤ time) },
      rs.testClock))
  let dc2 := q.2.1
  { dataClient := DataClient.processBars
      { dc2 with dataBars := dc2.dataBars.dropWhile (fun b => b.timestamp ≤ time) }
      (dc2.dataBars.takeWhile (fun b => b.timestamp ≤ time))
    execClient := q.1
    testClock := time
    iteration := rs.iteration }

/-- The main backtest loop (engine.pyx lines 225-240): `while time <= stop`,
one `stepRunState` then `time += time_step; iteration += 1`.  The source loop
never tests the sign of `time_step` and would not terminate for a nonpositive
step; the embedding exits the loop in that case. -/
def runLoop (sids : List Nat) (orders : Nat → Nat → List Order)
    (rs : RunState) (time stop step : Nat) : RunState :=
  if h : time ≤ stop ∧ 0 < step then
    let rs1 := stepRunState sids orders rs time
    runLoop sids orders { rs1 with iteration := rs1.iteration + 1 } (time + step) stop step
  else rs
termination_by stop + 1 - time
decreasing_by
  simp_wf
  obtain ⟨h1, h2⟩ := h
  exact Nat.sub_lt_sub_left (Nat.lt_succ_of_le h1) (Nat.lt_add_of_pos_right h2)

/-- `BacktestEngine._change_strategy_clocks_and_loggers` (engine.pyx lines
420-431): every strategy receives a fresh separate `TestClock`. -/
def Engine.changeStrategyClocks (e : Engine) : Engine :=
  { e with
    strategies := mkStrategyRecs (e.strategies.map (fun s => s.sid)) e.nextClockId
    nextClockId := e.nextClockId + e.strategies.length }

/-- `BacktestEngine.run` (engine.pyx lines 167-247): the three range
preconditions (lines 188-190) fail the call with no state change; otherwise
an optional fill-model change is installed, the test clock is set to `start`
(line 207), strategy clocks are replaced (line 209), the data iteration is
positioned at `start` (line 214), the main loop runs, and the run's wall
start time is recorded for the log header/footer. -/
def Engine.run (e : Engine) (start stop step : Nat)
    (fm? : Option FillModel) (orders : Nat → Nat → List Order)
    (runStarted : Nat) : Engine × Option EngineError :=
  if ¬ start < stop then (e, some .invalidRange)
  else if ¬ e.dataClient.minuteIndex.headD 0 ≤ start then (e, some .invalidRange)
  else if ¬ stop ≤ e.dataClient.minuteIndex.getLastD 0 then (e, some .invalidRange)
  else
    let ec0 := match fm? with
      | some fm => e.execClient.changeFillModel fm
      | none => e.execClient
    let e1 := e.changeStrategyClocks
    let rs := runLoop (e1.strategies.map (fun s => s.sid)) orders
      { dataClient := e.dataClient.setInitialIteration start
        execClient := ec0
        testClock := start
        iteration := e.iteration }
      start stop step
    ({ e1 with
        dataClient := rs.dataClient
        execClient := rs.execClient
        testClock := rs.testClock
        iteration := rs.iteration
        runStartTime := start
        lastRunStarted := runStarted }, none)

/-- `BacktestEngine.reset` (engine.pyx lines 325-334) sets the iteration
counter to zero and delegates to the component resets.  Modelled from the
spec: the bodies of `BacktestDataClient.reset`, `BacktestExecClient.reset`
and `Trader.reset` are not in the source sample; per spec section 6 they
restore the pre-run state — the clock at the run's starting epoch, an empty
portfolio, no resting orders, historical data rewound — while retaining the
configuration. -/
def Engine.reset (e : Engine) : Engine :=
  { e with
    iteration := 0
    dataClient := e.dataClient.reset
    execClient := e.execClient.reset
    testClock := e.runStartTime }

/-- Observable delivery and clock actions of the main loop, used to state the
ordering properties of `BacktestEngine.run`. -/
inductive Action where
  | clockSet (ts : Nat)
  | execBars (b : Bar)
  | execTick (t : Tick)
  | strategyIterate (sid : Nat) (ts : Nat)
  | dataTick (t : Tick)
  | dataBars (bs : List Bar)
deriving DecidableEq, Repr

/-- The actions emitted while handling one due tick (engine.pyx lines
230-235): clock to the tick's timestamp, execution-client delivery in tick
mode only, the strategy callbacks, then the data-client delivery. -/
def tickBlock (useTicks : Bool) (sids : List Nat) (t : Tick) : List Action :=
  Action.clockSet t.timestamp ::
    ((if useTicks then [Action.execTick t] else []) ++
      (sids.map (fun s => Action.strategyIterate s t.timestamp) ++ [Action.dataTick t]))

/-- The action trace of the main backtest loop (engine.pyx lines 225-240):
per iteration, in bar mode the due minute bars go to the execution client
first (lines 226-228); then each due tick is handled by `tickBlock` (lines
229-235); then the clock moves to the step boundary and the due bars go to
the data client (lines 236-237). -/
def runTraceLoop (useTicks : Bool) (sids : List Nat) (ticks : List Tick)
    (ebars dbars : List Bar) (time stop step : Nat) : List Action :=
  if h : time ≤ stop ∧ 0 < step then
    (if useTicks then [] else
      (ebars.takeWhile (fun b => b.timestamp ≤ time)).map Action.execBars) ++
      (((ticks.takeWhile (fun t => t.timestamp ≤ time)).map (tickBlock useTicks sids)).flatten ++
        (Action.clockSet time ::
          Action.dataBars (dbars.takeWhile (fun b => b.timestamp ≤ time)) ::
          runTraceLoop useTicks sids (ticks.dropWhile (fun t => t.timestamp ≤ time))
            (if useTicks then ebars else ebars.dropWhile (fun b => b.timestamp ≤ time))
            (dbars.dropWhile (fun b => b.timestamp ≤ time)) (time + step) stop step))
  else []
termination_by stop + 1 - time
decreasing_by
  simp_wf
  obtain ⟨h1, h2⟩ := h
  exact Nat.sub_lt_sub_left (Nat.lt_succ_of_le h1) (Nat.lt_add_of_pos_right h2)

/-- The action trace of a whole `run` call past its guards: the setup clock
assignment to `start` (engine.pyx line 207), the assignment performed inside
`set_initial_iteration` (line 214, per its inline comment), then the loop
trace. -/
def Engine.runTrace (e : Engine) (start stop step : Nat) : List Action :=
  let dc := e.dataClient.setInitialIteration start
  Action.clockSet start :: Action.clockSet start ::
    runTraceLoop dc.use_ticks (e.strategies.map (fun s => s.sid)) dc.ticks dc.execBars
      dc.dataBars start stop step

/-- The sequence of test-clock assignments contained in a trace. -/
def clockTimesOf (tr : List Action) : List Nat :=
  tr.filterMap (fun a => match a with
    | Action.clockSet ts => some ts
    | _ => none)

/-- Every assignment made to the engine's test clock over its lifetime up to
the end of one run: the construction assignment to the wall-clock time
(engine.pyx line 81) followed by the assignments of a `run start stop step`
call. -/
def Engine.lifetimeClockAssignments (e : Engine) (start stop step : Nat) :
    List Nat :=
  e.createdTime :: clockTimesOf (e.runTrace start stop step)

end NT

namespace NT

/-- An apply whose fill identifier is already in the seen set is rejected
with the portfolio unchanged. -/
theorem Portfolio.apply_of_mem_seen (p : Portfolio) (g : Fill)
    (h : g.fillId ∈ p.seenFillIds) :
    p.apply g = (p, some PortfolioError.duplicateFill) := by
  unfold Portfolio.apply
  rw [if_pos h]

/-- Every apply leaves the fill's identifier in the seen set. -/
theorem Portfolio.mem_seen_after_apply (p : Portfolio) (f : Fill) :
    f.fillId ∈ ((p.apply f).1).seenFillIds := by
  unfold Portfolio.apply
  by_cases hmem : f.fillId ∈ p.seenFillIds
  · rw [if_pos hmem]
    exact hmem
  · rw [if_neg hmem]
    exact List.mem_cons_self _ _

/-- C9: a second application of a fill with an already-applied identifier is
rejected with `DuplicateFill` and leaves the portfolio (hence the account)
exactly as it was after the first application. -/
theorem portfolio_apply_duplicate_rejected (p : Portfolio) (f g : Fill)
    (hid : g.fillId = f.fillId) :
    ((p.apply f).1.apply g).1 = (p.apply f).1 ∧
      ((p.apply f).1.apply g).2 = some PortfolioError.duplicateFill := by
  have hmem : g.fillId ∈ ((p.apply f).1).seenFillIds := by
    rw [hid]
    exact Portfolio.mem_seen_after_apply p f
  rw [Portfolio.apply_of_mem_seen _ _ hmem]
  exact ⟨rfl, rfl⟩

/-- Witness for C9 on concrete data: applying the same fill identifier twice
to an initially empty portfolio is rejected the second time with the state
unchanged. -/
theorem portfolio_apply_duplicate_rejected_witness :
    (7 : Nat) = (7 : Nat) ∧
      ((({ seenFillIds := [], positions := [],
           account := { currency := 0, cashBalance := 10000, realizedPnl := 0,
                        totalCommissions := 0 } } : Portfolio).apply
          { fillId := 7, orderId := 1, symbol := 0, side := .buy, quantity := 10,
            price := 100, commission := 0, timestamp := 5 }).1.apply
          { fillId := 7, orderId := 1, symbol := 0, side := .buy, quantity := 10,
            price := 100, commission := 0, timestamp := 5 }).2
        = some PortfolioError.duplicateFill := by
  refine ⟨rfl, ?_⟩
  exact (portfolio_apply_duplicate_rejected
    { seenFillIds := [], positions := [],
      account := { currency := 0, cashBalance := 10000, realizedPnl := 0,
                   totalCommissions := 0 } }
    { fillId := 7, orderId := 1, symbol := 0, side := .buy, quantity := 10,
      price := 100, commission := 0, timestamp := 5 }
    { fillId := 7, orderId := 1, symbol := 0, side := .buy, quantity := 10,
      price := 100, commission := 0, timestamp := 5 } rfl).2

/-- Unfolding of `runLoop` while the loop condition holds. -/
theorem runLoop_step (sids : List Nat) (orders : Nat → Nat → List Order)
    (rs : RunState) (time stop step : Nat) (hle : time ≤ stop) (hs : 0 < step) :
    runLoop sids orders rs time stop step =
      runLoop sids orders
        { stepRunState sids orders rs time with
          iteration := (stepRunState sids orders rs time).iteration + 1 }
        (time + step) stop step := by
  rw [runLoop]
  rw [dif_pos ⟨hle, hs⟩]

/-- Unfolding of `runLoop` once the loop condition fails. -/
theorem runLoop_stop (sids : List Nat) (orders : Nat → Nat → List Order)
    (rs : RunState) (time stop step : Nat) (h : ¬ (time ≤ stop ∧ 0 < step)) :
    runLoop sids orders rs time stop step = rs := by
  rw [runLoop]
  rw [dif_neg h]

/-- The loop body never touches the iteration counter. -/
theorem stepRunState_iteration (sids : List Nat) (orders : Nat → Nat → List Order)
    (rs : RunState) (time : Nat) :
    (stepRunState sids orders rs time).iteration = rs.iteration := rfl

/-- The loop executes `(stop - time) / step + 1` iterations when entered with
`time ≤ stop` and a positive step, incrementing the counter once each. -/
theorem runLoop_iteration (sids : List Nat) (orders : Nat → Nat → List Order)
    (stop step : Nat) (hs : 0 < step) :
    ∀ n time rs, stop + 1 - time = n → time ≤ stop →
      (runLoop sids orders rs time stop step).iteration =
        rs.iteration + ((stop - time) / step + 1) := by
  intro n
  induction n using Nat.strong_induction_on with
  | _ n ih =>
    intro time rs hn hle
    rw [runLoop_step sids orders rs time stop step hle hs]
    by_cases hnext : time + step ≤ stop
    · rw [ih (stop + 1 - (time + step)) (by omega) (time + step) _ rfl hnext]
      have hdiv : (stop - time) / step = (stop - (time + step)) / step + 1 := by
        rw [Nat.div_eq_sub_div hs (by omega), Nat.sub_sub]
      simp only [stepRunState_iteration]
      omega
    · rw [runLoop_stop _ _ _ _ _ _ (by omega)]
      have hdiv : (stop - time) / step = 0 := Nat.div_eq_of_lt (by omega)
      simp only [stepRunState_iteration]
      omega

/-- C8: for every valid `run(start, stop, time_step)` call (positive step and
the three range preconditions satisfied), the main backtest loop terminates —
the call returns normally — after exactly `floor((stop - start) / time_step)
+ 1` iterations of the `while time <= stop` loop. -/
theorem run_terminates_with_iteration_count (e : Engine) (start stop step : Nat)
    (orders : Nat → Nat → List Order) (runStarted : Nat)
    (hs : 0 < step) (h1 : start < stop)
    (h2 : e.dataClient.minuteIndex.headD 0 ≤ start)
    (h3 : stop ≤ e.dataClient.minuteIndex.getLastD 0) :
    (e.run start stop step none orders runStarted).2 = none ∧
      (e.run start stop step none orders runStarted).1.iteration =
        e.iteration + ((stop - start) / step + 1) := by
  unfold Engine.run
  rw [if_neg (by omega), if_neg (by omega), if_neg (by omega)]
  refine ⟨rfl, ?_⟩
  exact runLoop_iteration _ orders stop step hs _ start _ rfl (Nat.le_of_lt h1)

/-- Witness for C8: a concrete valid run over two minute bars with a step of
10 executes `(60 - 50) / 10 + 1 = 2` loop iterations. -/
theorem run_terminates_with_iteration_count_witness :
    ((0 : Nat) < 10 ∧ (50 : Nat) < 60 ∧
      (mkEngine [0] [] [⟨0, 100, 50⟩, ⟨0, 101, 60⟩] [0] ⟨3, 0⟩ ⟨10000, 0, 0⟩
        100).dataClient.minuteIndex.headD 0 ≤ 50 ∧
      (60 : Nat) ≤ (mkEngine [0] [] [⟨0, 100, 50⟩, ⟨0, 101, 60⟩] [0] ⟨3, 0⟩ ⟨10000, 0, 0⟩
        100).dataClient.minuteIndex.getLastD 0) ∧
      ((mkEngine [0] [] [⟨0, 100, 50⟩, ⟨0, 101, 60⟩] [0] ⟨3, 0⟩ ⟨10000, 0, 0⟩ 100).run
          50 60 10 none (fun _ _ => []) 200).1.iteration =
        (mkEngine [0] [] [⟨0, 100, 50⟩, ⟨0, 101, 60⟩] [0] ⟨3, 0⟩ ⟨10000, 0, 0⟩
          100).iteration + ((60 - 50) / 10 + 1) := by
  refine ⟨⟨by decide, by decide, by decide, by decide⟩, ?_⟩
  exact (run_terminates_with_iteration_count
    (mkEngine [0] [] [⟨0, 100, 50⟩, ⟨0, 101, 60⟩] [0] ⟨3, 0⟩ ⟨10000, 0, 0⟩ 100)
    50 60 10 (fun _ _ => []) 200 (by decide) (by decide) (by decide) (by decide)).2

/-- C10: the iteration counter increments by exactly one per executed loop
iteration — after a valid run it equals its pre-call value plus the number of
loop iterations executed, `floor((stop - start) / time_step) + 1` — and
`reset()` returns it to zero. -/
theorem iteration_counter_accounting (e : Engine) (start stop step : Nat)
    (orders : Nat → Nat → List Order) (runStarted : Nat)
    (hs : 0 < step) (h1 : start < stop)
    (h2 : e.dataClient.minuteIndex.headD 0 ≤ start)
    (h3 : stop ≤ e.dataClient.minuteIndex.getLastD 0) :
    (e.run start stop step none orders runStarted).1.iteration =
        e.iteration + ((stop - start) / step + 1) ∧
      (Engine.reset e).iteration = 0 := by
  refine ⟨?_, rfl⟩
  unfold Engine.run
  rw [if_neg (by omega), if_neg (by omega), if_neg (by omega)]
  exact runLoop_iteration _ orders stop step hs _ start _ rfl (Nat.le_of_lt h1)

/-- Witness for C10 on the concrete two-bar fixture, starting from a nonzero
prior iteration count obtained by running the engine twice. -/
theorem iteration_counter_accounting_witness :
    ((0 : Nat) < 10 ∧ (50 : Nat) < 60 ∧
      (mkEngine [0] [⟨0, 99, 100, 55⟩] [⟨0, 100, 50⟩, ⟨0, 101, 60⟩] [0] ⟨3, 0⟩
        ⟨10000, 0, 0⟩ 100).dataClient.minuteIndex.headD 0 ≤ 50 ∧
      (60 : Nat) ≤ (mkEngine [0] [⟨0, 99, 100, 55⟩] [⟨0, 100, 50⟩, ⟨0, 101, 60⟩] [0] ⟨3, 0⟩
        ⟨10000, 0, 0⟩ 100).dataClient.minuteIndex.getLastD 0) ∧
      ((mkEngine [0] [⟨0, 99, 100, 55⟩] [⟨0, 100, 50⟩, ⟨0, 101, 60⟩] [0] ⟨3, 0⟩
          ⟨10000, 0, 0⟩ 100).run 50 60 10 none (fun _ _ => []) 200).1.iteration =
        (mkEngine [0] [⟨0, 99, 100, 55⟩] [⟨0, 100, 50⟩, ⟨0, 101, 60⟩] [0] ⟨3, 0⟩
          ⟨10000, 0, 0⟩ 100).iteration + ((60 - 50) / 10 + 1) ∧
      (Engine.reset (mkEngine [0] [⟨0, 99, 100, 55⟩] [⟨0, 100, 50⟩, ⟨0, 101, 60⟩] [0]
        ⟨3, 0⟩ ⟨10000, 0, 0⟩ 100)).iteration = 0 := by
  refine ⟨⟨by decide, by decide, by decide, by decide⟩, ?_⟩
  exact iteration_counter_accounting
    (mkEngine [0] [⟨0, 99, 100, 55⟩] [⟨0, 100, 50⟩, ⟨0, 101, 60⟩] [0] ⟨3, 0⟩
      ⟨10000, 0, 0⟩ 100)
    50 60 10 (fun _ _ => []) 200 (by decide) (by decide) (by decide) (by decide)

/-- C2: a `run(start, stop)` call with `start >= stop`, or with `start` before
the first timestamp of the merged minute data, or with `stop` after its last
timestamp, fails with `InvalidRange` and returns the engine state — iteration
counter, virtual clock, data client, execution client (hence portfolio), and
strategies — entirely unchanged. -/
theorem run_invalid_range_no_mutation (e : Engine) (start stop step : Nat)
    (fm? : Option FillModel) (orders : Nat → Nat → List Order)
    (runStarted : Nat)
    (h : stop ≤ start ∨ start < e.dataClient.minuteIndex.headD 0 ∨
      e.dataClient.minuteIndex.getLastD 0 < stop) :
    e.run start stop step fm? orders runStarted = (e, some EngineError.invalidRange) := by
  unfold Engine.run
  by_cases hss : start < stop
  · rcases h with h | h | h
    · omega
    · rw [if_neg (by omega), if_pos (by omega)]
    · by_cases hfirst : e.dataClient.minuteIndex.headD 0 ≤ start
      · rw [if_neg (by omega), if_neg (by omega), if_pos (by omega)]
      · rw [if_neg (by omega), if_pos (by omega)]
  · rw [if_pos hss]

/-- Witness for C2: `run(60, 60)` on the concrete two-bar engine fails with
`InvalidRange` and hands back the engine unchanged. -/
theorem run_invalid_range_no_mutation_witness :
    ((60 : Nat) ≤ 60 ∨
        (60 : Nat) < (mkEngine [0] [] [⟨0, 100, 50⟩, ⟨0, 101, 60⟩] [0] ⟨3, 0⟩
          ⟨10000, 0, 0⟩ 100).dataClient.minuteIndex.headD 0 ∨
        (mkEngine [0] [] [⟨0, 100, 50⟩, ⟨0, 101, 60⟩] [0] ⟨3, 0⟩
          ⟨10000, 0, 0⟩ 100).dataClient.minuteIndex.getLastD 0 < 60) ∧
      (mkEngine [0] [] [⟨0, 100, 50⟩, ⟨0, 101, 60⟩] [0] ⟨3, 0⟩ ⟨10000, 0, 0⟩ 100).run
          60 60 10 none (fun _ _ => []) 200 =
        (mkEngine [0] [] [⟨0, 100, 50⟩, ⟨0, 101, 60⟩] [0] ⟨3, 0⟩ ⟨10000, 0, 0⟩ 100,
          some EngineError.invalidRange) := by
  refine ⟨Or.inl (by decide), ?_⟩
  exact run_invalid_range_no_mutation
    (mkEngine [0] [] [⟨0, 100, 50⟩, ⟨0, 101, 60⟩] [0] ⟨3, 0⟩ ⟨10000, 0, 0⟩ 100)
    60 60 10 none (fun _ _ => []) 200 (Or.inl (by decide))

/-- C1: determinism of the backtest.  Two engines built from identical
configuration, instruments, tick/bar input series, strategies and fill model
(hence the same seed), run over the same range with the same strategy-issued
order stream, produce identical fill sequences and identical final account
state.  The wall-clock instants read at construction (`w1`/`w2`) and at run
start (`r1`/`r2`) — the only ambient inputs of the source — influence
neither. -/
theorem run_deterministic (ins : List Nat) (ticks : List Tick) (bars : List Bar)
    (sids : List Nat) (fm : FillModel) (cfg : BacktestConfig)
    (orders : Nat → Nat → List Order) (start stop step : Nat)
    (w1 w2 r1 r2 : Nat) :
    ((mkEngine ins ticks bars sids fm cfg w1).run start stop step none orders
          r1).1.execClient.fills =
        ((mkEngine ins ticks bars sids fm cfg w2).run start stop step none orders
          r2).1.execClient.fills ∧
      ((mkEngine ins ticks bars sids fm cfg w1).run start stop step none orders
          r1).1.execClient.portfolio.account =
        ((mkEngine ins ticks bars sids fm cfg w2).run start stop step none orders
          r2).1.execClient.portfolio.account := by
  constructor <;>
    · simp only [Engine.run, mkEngine, Engine.changeStrategyClocks]
      split_ifs <;> rfl

/-- Unfolding of `runTraceLoop` while the loop condition holds. -/
theorem runTraceLoop_step (u : Bool) (sids : List Nat) (ticks : List Tick)
    (ebars dbars : List Bar) (time stop step : Nat)
    (hle : time ≤ stop) (hs : 0 < step) :
    runTraceLoop u sids ticks ebars dbars time stop step =
      (if u then [] else
        (ebars.takeWhile (fun b => b.timestamp ≤ time)).map Action.execBars) ++
        (((ticks.takeWhile (fun t => t.timestamp ≤ time)).map (tickBlock u sids)).flatten ++
          (Action.clockSet time ::
            Action.dataBars (dbars.takeWhile (fun b => b.timestamp ≤ time)) ::
            runTraceLoop u sids (ticks.dropWhile (fun t => t.timestamp ≤ time))
              (if u then ebars else ebars.dropWhile (fun b => b.timestamp ≤ time))
              (dbars.dropWhile (fun b => b.timestamp ≤ time)) (time + step) stop step)) := by
  rw [runTraceLoop]
  rw [dif_pos ⟨hle, hs⟩]

/-- Unfolding of `runTraceLoop` once the loop condition fails. -/
theorem runTraceLoop_stop (u : Bool) (sids : List Nat) (ticks : List Tick)
    (ebars dbars : List Bar) (time stop step : Nat)
    (h : ¬ (time ≤ stop ∧ 0 < step)) :
    runTraceLoop u sids ticks ebars dbars time stop step = [] := by
  rw [runTraceLoop]
  rw [dif_neg h]

/-- Is the action a minute-bar delivery to the execution client? -/
def isExecBarsAct : Action → Bool
  | .execBars _ => true
  | _ => false

/-- Is the action a tick delivery to the execution client? -/
def isExecTickAct : Action → Bool
  | .execTick _ => true
  | _ => false

/-- Is the action a strategy callback or a data-client delivery (the stream
the strategies observe)? -/
def isDataOrStrategyAct : Action → Bool
  | .strategyIterate _ _ => true
  | .dataTick _ => true
  | .dataBars _ => true
  | _ => false

/-- Members of a tick block are clock assignments, tick deliveries, strategy
callbacks or data deliveries — never bar deliveries to the execution
client. -/
theorem tickBlock_not_execBars (u : Bool) (sids : List Nat) (t : Tick) (a : Action)
    (ha : a ∈ tickBlock u sids t) : isExecBarsAct a = false := by
  cases u
  · simp [tickBlock] at ha
    rcases ha with rfl | ⟨s, hs, rfl⟩ | rfl <;> rfl
  · simp [tickBlock] at ha
    rcases ha with rfl | rfl | ⟨s, hs, rfl⟩ | rfl <;> rfl

/-- In bar mode a tick block contains no tick delivery to the execution
client. -/
theorem tickBlock_bar_mode_not_execTick (sids : List Nat) (t : Tick) (a : Action)
    (ha : a ∈ tickBlock false sids t) : isExecTickAct a = false := by
  simp [tickBlock] at ha
  rcases ha with rfl | ⟨s, hs, rfl⟩ | rfl <;> rfl

/-- In tick mode the loop trace contains no bar delivery to the execution
client. -/
theorem runTraceLoop_tick_mode_no_execBars (sids : List Nat) (stop step : Nat) :
    ∀ n time ticks ebars dbars, stop + 1 - time = n →
      ∀ a ∈ runTraceLoop true sids ticks ebars dbars time stop step,
        isExecBarsAct a = false := by
  intro n
  induction n using Nat.strong_induction_on with
  | _ n ih =>
    intro time ticks ebars dbars hn a ha
    by_cases hc : time ≤ stop ∧ 0 < step
    · rw [runTraceLoop_step _ _ _ _ _ _ _ _ hc.1 hc.2] at ha
      rw [if_pos rfl] at ha
      simp only [List.nil_append, List.mem_append, List.mem_flatten,
        List.mem_map, List.mem_cons] at ha
      rcases ha with ⟨l, ⟨t, ht, rfl⟩, hal⟩ | ha | ha | ha
      · exact tickBlock_not_execBars true sids t a hal
      · rw [ha]; rfl
      · rw [ha]; rfl
      · exact ih (stop + 1 - (time + step)) (by omega) (time + step) _ _ _ rfl a ha
    · rw [runTraceLoop_stop _ _ _ _ _ _ _ _ hc] at ha
      cases ha

/-- In bar mode the loop trace contains no tick delivery to the execution
client. -/
theorem runTraceLoop_bar_mode_no_execTick (sids : List Nat) (stop step : Nat) :
    ∀ n time ticks ebars dbars, stop + 1 - time = n →
      ∀ a ∈ runTraceLoop false sids ticks ebars dbars time stop step,
        isExecTickAct a = false := by
  intro n
  induction n using Nat.strong_induction_on with
  | _ n ih =>
    intro time ticks ebars dbars hn a ha
    by_cases hc : time ≤ stop ∧ 0 < step
    · rw [runTraceLoop_step _ _ _ _ _ _ _ _ hc.1 hc.2] at ha
      rw [if_neg (by simp)] at ha
      simp only [List.mem_append, List.mem_flatten, List.mem_map,
        List.mem_cons] at ha
      rcases ha with ⟨b, hb, rfl⟩ | ⟨l, ⟨t, ht, rfl⟩, hal⟩ | ha | ha | ha
      · rfl
      · exact tickBlock_bar_mode_not_execTick sids t a hal
      · rw [ha]; rfl
      · rw [ha]; rfl
      · exact ih (stop + 1 - (time + step)) (by omega) (time + step) _ _ _ rfl a ha
    · rw [runTraceLoop_stop _ _ _ _ _ _ _ _ hc] at ha
      cases ha

/-- The data/strategy-visible part of one tick block is the same in both
execution-resolution modes. -/
theorem tickBlock_filter_dataOrStrategy (u : Bool) (sids : List Nat) (t : Tick) :
    (tickBlock u sids t).filter isDataOrStrategyAct =
      sids.map (fun s => Action.strategyIterate s t.timestamp) ++ [Action.dataTick t] := by
  have hmap : ∀ l : List Nat,
      (l.map (fun s => Action.strategyIterate s t.timestamp)).filter isDataOrStrategyAct =
        l.map (fun s => Action.strategyIterate s t.timestamp) := by
    intro l
    induction l with
    | nil => rfl
    | cons s l ih => simp [List.filter_cons, isDataOrStrategyAct, ih]
  cases u <;>
    simp [tickBlock, List.filter_cons, List.filter_append, isDataOrStrategyAct, hmap]

/-- The data/strategy-visible part of the bar-delivery prefix is empty. -/
theorem execBars_map_filter_dataOrStrategy (l : List Bar) :
    (l.map Action.execBars).filter isDataOrStrategyAct = [] := by
  induction l with
  | nil => rfl
  | cons b l ih => simp [List.filter_cons, isDataOrStrategyAct, ih]

/-- The sub-trace visible to strategies (strategy callbacks and data-client
deliveries) does not depend on the execution-resolution mode, nor on the
execution client's bar series. -/
theorem runTraceLoop_filter_dataOrStrategy_mode_independent (sids : List Nat)
    (stop step : Nat) :
    ∀ n time ticks dbars u1 u2 eb1 eb2, stop + 1 - time = n →
      (runTraceLoop u1 sids ticks eb1 dbars time stop step).filter isDataOrStrategyAct =
        (runTraceLoop u2 sids ticks eb2 dbars time stop step).filter isDataOrStrategyAct := by
  intro n
  induction n using Nat.strong_induction_on with
  | _ n ih =>
    intro time ticks dbars u1 u2 eb1 eb2 hn
    by_cases hc : time ≤ stop ∧ 0 < step
    · rw [runTraceLoop_step u1 _ _ _ _ _ _ _ hc.1 hc.2,
        runTraceLoop_step u2 _ _ _ _ _ _ _ hc.1 hc.2]
      have hpre : ∀ (u : Bool) (eb : List Bar),
          ((if u then [] else
            (eb.takeWhile (fun b => b.timestamp ≤ time)).map Action.execBars) :
              List Action).filter isDataOrStrategyAct = [] := by
        intro u eb
        cases u
        · exact execBars_map_filter_dataOrStrategy _
        · rfl
      have hblocks : ∀ u : Bool,
          (((ticks.takeWhile (fun t => t.timestamp ≤ time)).map
            (tickBlock u sids)).flatten).filter isDataOrStrategyAct =
          (((ticks.takeWhile (fun t => t.timestamp ≤ time)).map
            (tickBlock true sids)).flatten).filter isDataOrStrategyAct := by
        intro u
        rw [List.filter_flatten, List.filter_flatten]
        congr 1
        rw [List.map_map, List.map_map]
        apply List.map_congr_left
        intro t ht
        simp only [Function.comp_apply, tickBlock_filter_dataOrStrategy]
      simp only [List.filter_append, hpre, List.filter_cons, List.nil_append]
      rw [hblocks u1, hblocks u2]
      have hrec := ih (stop + 1 - (time + step)) (by omega) (time + step)
        (ticks.dropWhile (fun t => t.timestamp ≤ time))
        (dbars.dropWhile (fun b => b.timestamp ≤ time)) u1 u2
        (if u1 then eb1 else eb1.dropWhile (fun b => b.timestamp ≤ time))
        (if u2 then eb2 else eb2.dropWhile (fun b => b.timestamp ≤ time)) rfl
      simp only [isDataOrStrategyAct, hrec]
    · rw [runTraceLoop_stop u1 _ _ _ _ _ _ _ hc, runTraceLoop_stop u2 _ _ _ _ _ _ _ hc]

/-- C6: the execution-resolution mode chosen at construction is respected by
every loop iteration: in tick mode no minute bar is delivered to the
execution client; in bar mode no tick is delivered to the execution client;
and the stream of strategy callbacks and data-client deliveries that the
strategies observe is identical in the two modes. -/
theorem execution_resolution_mode_respected (e : Engine) (start stop step : Nat)
    (sids : List Nat) (ticks : List Tick) (eb1 eb2 dbars : List Bar)
    (time : Nat) (u1 u2 : Bool)
    (ht : e.dataClient.use_ticks = true) :
    ((e.runTrace start stop step).countP isExecBarsAct = 0) ∧
      (∀ e2 : Engine, e2.dataClient.use_ticks = false →
        (e2.runTrace start stop step).countP isExecTickAct = 0) ∧
      ((runTraceLoop u1 sids ticks eb1 dbars time stop step).filter
          isDataOrStrategyAct =
        (runTraceLoop u2 sids ticks eb2 dbars time stop step).filter
          isDataOrStrategyAct) := by
  refine ⟨?_, ?_, ?_⟩
  · rw [List.countP_eq_zero]
    intro a ha
    simp only [Engine.runTrace] at ha
    have hu : (e.dataClient.setInitialIteration start).use_ticks = true := ht
    rw [hu] at ha
    simp only [List.mem_cons] at ha
    rcases ha with rfl | rfl | ha
    · simp [isExecBarsAct]
    · simp [isExecBarsAct]
    · have := runTraceLoop_tick_mode_no_execBars
        (e.strategies.map (fun s => s.sid)) stop step (stop + 1 - start) start
        _ _ _ rfl a ha
      simp [this]
  · intro e2 hf
    rw [List.countP_eq_zero]
    intro a ha
    simp only [Engine.runTrace] at ha
    have hu : (e2.dataClient.setInitialIteration start).use_ticks = false := hf
    rw [hu] at ha
    simp only [List.mem_cons] at ha
    rcases ha with rfl | rfl | ha
    · simp [isExecTickAct]
    · simp [isExecTickAct]
    · have := runTraceLoop_bar_mode_no_execTick
        (e2.strategies.map (fun s => s.sid)) stop step (stop + 1 - start) start
        _ _ _ rfl a ha
      simp [this]
  · exact runTraceLoop_filter_dataOrStrategy_mode_independent sids stop step
      (stop + 1 - time) time ticks dbars u1 u2 eb1 eb2 rfl

/-- Witness for C6 on the concrete fixtures: the tick-mode engine's run trace
has no execution-client bar deliveries, the bar-mode engine's has no
execution-client tick deliveries, and the strategy-visible sub-trace agrees
across modes. -/
theorem execution_resolution_mode_respected_witness :
    ((mkEngine [0] [⟨0, 99, 100, 55⟩] [⟨0, 100, 50⟩, ⟨0, 101, 60⟩] [0] ⟨3, 0⟩
        ⟨10000, 0, 0⟩ 100).dataClient.use_ticks = true) ∧
      (((mkEngine [0] [⟨0, 99, 100, 55⟩] [⟨0, 100, 50⟩, ⟨0, 101, 60⟩] [0] ⟨3, 0⟩
          ⟨10000, 0, 0⟩ 100).runTrace 50 60 10).countP isExecBarsAct = 0) ∧
      (((mkEngine [0] [] [⟨0, 100, 50⟩, ⟨0, 101, 60⟩] [0] ⟨3, 0⟩
          ⟨10000, 0, 0⟩ 100).runTrace 50 60 10).countP isExecTickAct = 0) := by
  have h := execution_resolution_mode_respected
    (mkEngine [0] [⟨0, 99, 100, 55⟩] [⟨0, 100, 50⟩, ⟨0, 101, 60⟩] [0] ⟨3, 0⟩
      ⟨10000, 0, 0⟩ 100) 50 60 10 [0] [] [] [] [] 50 true true (by decide)
  exact ⟨by decide, h.1, h.2.1
    (mkEngine [0] [] [⟨0, 100, 50⟩, ⟨0, 101, 60⟩] [0] ⟨3, 0⟩ ⟨10000, 0, 0⟩ 100)
    (by decide)⟩

/-- A fold preserves any invariant preserved by each step. -/
theorem foldl_preserve {α β : Type _} {P : β → Prop} (f : β → α → β)
    (hf : ∀ b a, P b → P (f b a)) : ∀ (l : List α) (b : β), P b → P (l.foldl f b) := by
  intro l
  induction l with
  | nil => intro b hb; exact hb
  | cons a l ih => intro b hb; exact ih _ (hf b a hb)

/-- The configuration fields of the execution client that the backtest loop
body never writes. -/
def ExecClient.frame (ec : ExecClient) : FillModel × Int × Int × Nat :=
  (ec.fillModel, ec.commissionRateBp, ec.startingCapital, ec.accountCurrency)

/-- The configuration fields of the data client that the backtest loop body
never writes. -/
def DataClient.frame (dc : DataClient) : List Tick × List Bar × Bool :=
  (dc.initTicks, dc.initBars, dc.use_ticks)

set_option maxRecDepth 4000 in
/-- Evaluating one resting order leaves the execution client's configuration
fields untouched. -/
theorem evalOrder_frame (bid ask : Int) (ts symbol : Nat)
    (acc : ExecClient × List Order) (o : Order) :
    (evalOrder bid ask ts symbol acc o).1.frame = acc.1.frame := by
  unfold evalOrder
  split
  · split <;> simp [ExecClient.applyFill, ExecClient.frame]
  · rfl

/-- Processing a tick leaves the execution client's configuration untouched. -/
theorem ExecClient.processTick_frame (ec : ExecClient) (t : Tick) :
    (ec.processTick t).frame = ec.frame := by
  unfold ExecClient.processTick
  exact foldl_preserve (P := fun acc => acc.1.frame = ec.frame)
    (evalOrder t.bid t.ask t.timestamp t.symbol)
    (fun b a hb => (evalOrder_frame t.bid t.ask t.timestamp t.symbol b a).trans hb)
    ec.restingOrders ({ ec with eventCount := ec.eventCount + 1 }, []) rfl

/-- Processing a bar leaves the execution client's configuration untouched. -/
theorem ExecClient.processBar_frame (ec : ExecClient) (b : Bar) :
    (ec.processBar b).frame = ec.frame := by
  unfold ExecClient.processBar
  exact foldl_preserve (P := fun acc => acc.1.frame = ec.frame)
    (evalOrder b.close b.close b.timestamp b.symbol)
    (fun x a hx => (evalOrder_frame b.close b.close b.timestamp b.symbol x a).trans hx)
    ec.restingOrders ({ ec with eventCount := ec.eventCount + 1 }, []) rfl

/-- The body of the tick loop preserves the execution- and data-client
configuration frames. -/
theorem tickStep_frame (sids : List Nat) (orders : Nat → Nat → List Order)
    (acc : ExecClient × DataClient × Nat) (t : Tick) :
    (tickStep sids orders acc t).1.frame = acc.1.frame ∧
      (tickStep sids orders acc t).2.1.frame = acc.2.1.frame := by
  unfold tickStep
  constructor
  · have h1 : (if acc.2.1.use_ticks then acc.1.processTick t else acc.1).frame =
        acc.1.frame := by
      split
      · exact ExecClient.processTick_frame acc.1 t
      · rfl
    exact (foldl_preserve (P := fun ec : ExecClient => ec.frame = acc.1.frame)
      (fun e sid => { e with restingOrders := e.restingOrders ++ orders sid t.timestamp })
      (fun b a hb => hb) sids _ h1)
  · rfl

/-- The loop body preserves the execution- and data-client configuration
frames. -/
theorem stepRunState_frame (sids : List Nat) (orders : Nat → Nat → List Order)
    (rs : RunState) (time : Nat) :
    (stepRunState sids orders rs time).execClient.frame = rs.execClient.frame ∧
      (stepRunState sids orders rs time).dataClient.frame = rs.dataClient.frame := by
  unfold stepRunState
  have hbar : (barPhase rs.execClient rs.dataClient time).1.frame = rs.execClient.frame ∧
      (barPhase rs.execClient rs.dataClient time).2.frame = rs.dataClient.frame := by
    unfold barPhase
    split
    · exact ⟨rfl, rfl⟩
    · refine ⟨?_, rfl⟩
      exact foldl_preserve (P := fun ec : ExecClient => ec.frame = rs.execClient.frame)
        ExecClient.processBar
        (fun b a hb => (ExecClient.processBar_frame b a).trans hb) _ _ rfl
  have htick := foldl_preserve
    (P := fun q : ExecClient × DataClient × Nat =>
      q.1.frame = rs.execClient.frame ∧ q.2.1.frame = rs.dataClient.frame)
    (tickStep sids orders)
    (fun b a hb =>
      ⟨((tickStep_frame sids orders b a).1).trans hb.1,
        ((tickStep_frame sids orders b a).2).trans hb.2⟩)
    ((barPhase rs.execClient rs.dataClient time).2.ticks.takeWhile
      (fun t => t.timestamp ≤ time))
    ((barPhase rs.execClient rs.dataClient time).1,
      { (barPhase rs.execClient rs.dataClient time).2 with
        ticks := (barPhase rs.execClient rs.dataClient time).2.ticks.dropWhile
          (fun t => t.timestamp ≤ time) }, rs.testClock)
    ⟨hbar.1, hbar.2⟩
  exact ⟨htick.1, htick.2⟩

/-- The whole main loop preserves the execution- and data-client configuration
frames. -/
theorem runLoop_frame (sids : List Nat) (orders : Nat → Nat → List Order)
    (stop step : Nat) :
    ∀ n time rs, stop + 1 - time = n →
      (runLoop sids orders rs time stop step).execClient.frame = rs.execClient.frame ∧
        (runLoop sids orders rs time stop step).dataClient.frame =
          rs.dataClient.frame := by
  intro n
  induction n using Nat.strong_induction_on with
  | _ n ih =>
    intro time rs hn
    by_cases hc : time ≤ stop ∧ 0 < step
    · rw [runLoop_step sids orders rs time stop step hc.1 hc.2]
      have hrec := ih (stop + 1 - (time + step)) (by omega) (time + step)
        { stepRunState sids orders rs time with
          iteration := (stepRunState sids orders rs time).iteration + 1 } rfl
      have hstep := stepRunState_frame sids orders rs time
      exact ⟨hrec.1.trans hstep.1, hrec.2.trans hstep.2⟩
    · rw [runLoop_stop sids orders rs time stop step hc]
      exact ⟨rfl, rfl⟩

/-- C5: after a completed run, `reset()` restores the pre-run state — the test
clock back to the run's starting epoch, an empty portfolio (no positions,
account back to the starting capital), no resting orders in the execution
client, the historical data rewound, and the iteration counter at zero —
while the configuration (config, instruments, fill model, commission rate) is
unchanged by the call. -/
theorem reset_restores_prerun_state (e : Engine) (start stop step : Nat)
    (orders : Nat → Nat → List Order) (runStarted : Nat)
    (h1 : start < stop) (h2 : e.dataClient.minuteIndex.headD 0 ≤ start)
    (h3 : stop ≤ e.dataClient.minuteIndex.getLastD 0) :
    ((e.run start stop step none orders runStarted).1.reset).iteration = 0 ∧
      ((e.run start stop step none orders runStarted).1.reset).testClock = start ∧
      ((e.run start stop step none orders
        runStarted).1.reset).execClient.portfolio.positions = [] ∧
      ((e.run start stop step none orders
          runStarted).1.reset).execClient.portfolio.account =
        { currency := e.execClient.accountCurrency
          cashBalance := e.execClient.startingCapital
          realizedPnl := 0
          totalCommissions := 0 } ∧
      ((e.run start stop step none orders
        runStarted).1.reset).execClient.restingOrders = [] ∧
      ((e.run start stop step none orders runStarted).1.reset).dataClient.ticks =
        e.dataClient.initTicks ∧
      ((e.run start stop step none orders runStarted).1.reset).dataClient.execBars =
        e.dataClient.initBars ∧
      ((e.run start stop step none orders runStarted).1.reset).dataClient.dataBars =
        e.dataClient.initBars ∧
      ((e.run start stop step none orders runStarted).1.reset).config = e.config ∧
      ((e.run start stop step none orders runStarted).1.reset).instruments =
        e.instruments ∧
      ((e.run start stop step none orders runStarted).1.reset).execClient.fillModel =
        (e.run start stop step none orders runStarted).1.execClient.fillModel ∧
      ((e.run start stop step none orders
          runStarted).1.reset).execClient.commissionRateBp =
        (e.run start stop step none orders runStarted).1.execClient.commissionRateBp ∧
      ((e.run start stop step none orders runStarted).1.reset).execClient.fillModel =
        e.execClient.fillModel := by
  have hrun : (e.run start stop step none orders runStarted).1 =
      { e.changeStrategyClocks with
        dataClient := (runLoop (e.changeStrategyClocks.strategies.map (fun s => s.sid))
          orders
          { dataClient := e.dataClient.setInitialIteration start
            execClient := e.execClient
            testClock := start
            iteration := e.iteration } start stop step).dataClient
        execClient := (runLoop (e.changeStrategyClocks.strategies.map (fun s => s.sid))
          orders
          { dataClient := e.dataClient.setInitialIteration start
            execClient := e.execClient
            testClock := start
            iteration := e.iteration } start stop step).execClient
        testClock := (runLoop (e.changeStrategyClocks.strategies.map (fun s => s.sid))
          orders
          { dataClient := e.dataClient.setInitialIteration start
            execClient := e.execClient
            testClock := start
            iteration := e.iteration } start stop step).testClock
        iteration := (runLoop (e.changeStrategyClocks.strategies.map (fun s => s.sid))
          orders
          { dataClient := e.dataClient.setInitialIteration start
            execClient := e.execClient
            testClock := start
            iteration := e.iteration } start stop step).iteration
        runStartTime := start
        lastRunStarted := runStarted } := by
    unfold Engine.run
    rw [if_neg (by omega), if_neg (by omega), if_neg (by omega)]
  have hframe := runLoop_frame (e.changeStrategyClocks.strategies.map (fun s => s.sid))
    orders stop step (stop + 1 - start) start
    { dataClient := e.dataClient.setInitialIteration start
      execClient := e.execClient
      testClock := start
      iteration := e.iteration } rfl
  have hfm : ((runLoop (e.changeStrategyClocks.strategies.map (fun s => s.sid)) orders
      { dataClient := e.dataClient.setInitialIteration start
        execClient := e.execClient
        testClock := start
        iteration := e.iteration } start stop step).execClient).fillModel =
      e.execClient.fillModel := congrArg (fun p => p.1) hframe.1
  have hsc : ((runLoop (e.changeStrategyClocks.strategies.map (fun s => s.sid)) orders
      { dataClient := e.dataClient.setInitialIteration start
        execClient := e.execClient
        testClock := start
        iteration := e.iteration } start stop step).execClient).startingCapital =
      e.execClient.startingCapital := congrArg (fun p => p.2.2.1) hframe.1
  have hac : ((runLoop (e.changeStrategyClocks.strategies.map (fun s => s.sid)) orders
      { dataClient := e.dataClient.setInitialIteration start
        execClient := e.execClient
        testClock := start
        iteration := e.iteration } start stop step).execClient).accountCurrency =
      e.execClient.accountCurrency := congrArg (fun p => p.2.2.2) hframe.1
  have hit : ((runLoop (e.changeStrategyClocks.strategies.map (fun s => s.sid)) orders
      { dataClient := e.dataClient.setInitialIteration start
        execClient := e.execClient
        testClock := start
        iteration := e.iteration } start stop step).dataClient).initTicks =
      e.dataClient.initTicks := congrArg (fun p => p.1) hframe.2
  have hib : ((runLoop (e.changeStrategyClocks.strategies.map (fun s => s.sid)) orders
      { dataClient := e.dataClient.setInitialIteration start
        execClient := e.execClient
        testClock := start
        iteration := e.iteration } start stop step).dataClient).initBars =
      e.dataClient.initBars := congrArg (fun p => p.2.1) hframe.2
  rw [hrun]
  refine ⟨rfl, rfl, rfl, ?_, rfl, hit, hib, hib, rfl, rfl, rfl, rfl, hfm⟩
  rw [← hac, ← hsc]
  rfl

/-- Witness for C5 on the concrete tick fixture: hypotheses of
`reset_restores_prerun_state` hold at `run(50, 60, 10)`. -/
theorem reset_restores_prerun_state_witness :
    ((50 : Nat) < 60 ∧
      (mkEngine [0] [⟨0, 99, 100, 55⟩] [⟨0, 100, 50⟩, ⟨0, 101, 60⟩] [0] ⟨3, 0⟩
        ⟨10000, 0, 0⟩ 100).dataClient.minuteIndex.headD 0 ≤ 50 ∧
      (60 : Nat) ≤ (mkEngine [0] [⟨0, 99, 100, 55⟩] [⟨0, 100, 50⟩, ⟨0, 101, 60⟩] [0]
        ⟨3, 0⟩ ⟨10000, 0, 0⟩ 100).dataClient.minuteIndex.getLastD 0) ∧
      (((mkEngine [0] [⟨0, 99, 100, 55⟩] [⟨0, 100, 50⟩, ⟨0, 101, 60⟩] [0] ⟨3, 0⟩
            ⟨10000, 0, 0⟩ 100).run 50 60 10 none (fun _ _ => []) 200).1.reset).iteration
          = 0 ∧
        (((mkEngine [0] [⟨0, 99, 100, 55⟩] [⟨0, 100, 50⟩, ⟨0, 101, 60⟩] [0] ⟨3, 0⟩
            ⟨10000, 0, 0⟩ 100).run 50 60 10 none (fun _ _ => []) 200).1.reset).testClock
          = 50 := by
  have h := reset_restores_prerun_state
    (mkEngine [0] [⟨0, 99, 100, 55⟩] [⟨0, 100, 50⟩, ⟨0, 101, 60⟩] [0] ⟨3, 0⟩
      ⟨10000, 0, 0⟩ 100) 50 60 10 (fun _ _ => []) 200
    (by decide) (by decide) (by decide)
  exact ⟨⟨by decide, by decide, by decide⟩, h.1, h.2.1⟩

/-- Unfolding of the tick-mode loop trace while the loop condition holds. -/
theorem runTraceLoop_step_tick (sids : List Nat) (ticks : List Tick)
    (ebars dbars : List Bar) (time stop step : Nat)
    (hle : time ≤ stop) (hs : 0 < step) :
    runTraceLoop true sids ticks ebars dbars time stop step =
      ((ticks.takeWhile (fun t => t.timestamp ≤ time)).map (tickBlock true sids)).flatten ++
        (Action.clockSet time ::
          Action.dataBars (dbars.takeWhile (fun b => b.timestamp ≤ time)) ::
          runTraceLoop true sids (ticks.dropWhile (fun t => t.timestamp ≤ time)) ebars
            (dbars.dropWhile (fun b => b.timestamp ≤ time)) (time + step) stop step) := by
  rw [runTraceLoop_step _ _ _ _ _ _ _ _ hle hs]
  rw [if_pos rfl, if_pos rfl, List.nil_append]

/-- Unfolding of the bar-mode loop trace while the loop condition holds. -/
theorem runTraceLoop_step_bar (sids : List Nat) (ticks : List Tick)
    (ebars dbars : List Bar) (time stop step : Nat)
    (hle : time ≤ stop) (hs : 0 < step) :
    runTraceLoop false sids ticks ebars dbars time stop step =
      ((ebars.takeWhile (fun b => b.timestamp ≤ time)).map Action.execBars) ++
        (((ticks.takeWhile (fun t => t.timestamp ≤ time)).map (tickBlock false sids)).flatten ++
          (Action.clockSet time ::
            Action.dataBars (dbars.takeWhile (fun b => b.timestamp ≤ time)) ::
            runTraceLoop false sids (ticks.dropWhile (fun t => t.timestamp ≤ time))
              (ebars.dropWhile (fun b => b.timestamp ≤ time))
              (dbars.dropWhile (fun b => b.timestamp ≤ time)) (time + step) stop step)) := by
  rw [runTraceLoop_step _ _ _ _ _ _ _ _ hle hs]
  rw [if_neg (by simp), if_neg (by simp)]

/-- A data delivery found inside a tick block is the block's own tick. -/
theorem dataTick_eq_of_mem_tickBlock (u : Bool) (sids : List Nat) (t t' : Tick)
    (h : Action.dataTick t ∈ tickBlock u sids t') : t = t' := by
  cases u <;> simp [tickBlock] at h <;> exact h

/-- A strategy callback found inside a tick block carries the block's tick
timestamp. -/
theorem strategyIterate_ts_of_mem_tickBlock (u : Bool) (sids : List Nat) (t' : Tick)
    (sid ts : Nat) (h : Action.strategyIterate sid ts ∈ tickBlock u sids t') :
    ts = t'.timestamp := by
  cases u <;> simp [tickBlock] at h <;>
    · obtain ⟨a, ha, h1, h2⟩ := h
      exact h2.symm

/-- In a sorted list, everything remaining after dropping the prefix with
timestamp at most `time` has timestamp beyond `time`. -/
theorem mem_dropWhile_le_of_sorted {α : Type _} (ts : α → Nat) (time : Nat) :
    ∀ l : List α, l.Pairwise (fun x y => ts x ≤ ts y) →
      ∀ b ∈ l.dropWhile (fun x => ts x ≤ time), time < ts b := by
  intro l
  induction l with
  | nil => intro _ b hb; cases hb
  | cons x l ih =>
    intro hp b hb
    by_cases hx : ts x ≤ time
    · rw [List.dropWhile_cons_of_pos (by simpa using hx)] at hb
      exact ih hp.of_cons b hb
    · rw [List.dropWhile_cons_of_neg (by simpa using hx)] at hb
      rcases List.mem_cons.mp hb with rfl | hb2
      · omega
      · have := (List.pairwise_cons.mp hp).1 b hb2
        omega

/-- In a sorted list, everything remaining after dropping the prefix with
timestamp before `start` has timestamp at least `start`. -/
theorem mem_dropWhile_lt_of_sorted {α : Type _} (ts : α → Nat) (start : Nat) :
    ∀ l : List α, l.Pairwise (fun x y => ts x ≤ ts y) →
      ∀ b ∈ l.dropWhile (fun x => ts x < start), start ≤ ts b := by
  intro l
  induction l with
  | nil => intro _ b hb; cases hb
  | cons x l ih =>
    intro hp b hb
    by_cases hx : ts x < start
    · rw [List.dropWhile_cons_of_pos (by simpa using hx)] at hb
      exact ih hp.of_cons b hb
    · rw [List.dropWhile_cons_of_neg (by simpa using hx)] at hb
      rcases List.mem_cons.mp hb with rfl | hb2
      · omega
      · have := (List.pairwise_cons.mp hp).1 b hb2
        omega

/-- Every bar delivered to the execution client by the bar-mode loop trace
comes from the execution bar series. -/
theorem runTraceLoop_execBars_mem (sids : List Nat) (stop step : Nat) :
    ∀ n time ticks ebars dbars, stop + 1 - time = n →
      ∀ b : Bar,
        Action.execBars b ∈ runTraceLoop false sids ticks ebars dbars time stop step →
        b ∈ ebars := by
  intro n
  induction n using Nat.strong_induction_on with
  | _ n ih =>
    intro time ticks ebars dbars hn b hb
    by_cases hc : time ≤ stop ∧ 0 < step
    · rw [runTraceLoop_step_bar _ _ _ _ _ _ _ hc.1 hc.2] at hb
      rcases List.mem_append.mp hb with hpre | hrest
      · obtain ⟨b', hb', heq⟩ := List.mem_map.mp hpre
        obtain rfl : b' = b := by
          simpa using heq
        exact (List.takeWhile_sublist _).subset hb'
      · rcases List.mem_append.mp hrest with hbl | hr
        · obtain ⟨l, hl, hal⟩ := List.mem_flatten.mp hbl
          obtain ⟨t', ht', rfl⟩ := List.mem_map.mp hl
          have := tickBlock_not_execBars false sids t' _ hal
          simp [isExecBarsAct] at this
        · rcases List.mem_cons.mp hr with h1 | hr2
          · simp at h1
          rcases List.mem_cons.mp hr2 with h2 | hrec
          · simp at h2
          · exact (List.dropWhile_sublist _).subset
              (ih (stop + 1 - (time + step)) (by omega) (time + step) _ _ _ rfl b hrec)
    · rw [runTraceLoop_stop _ _ _ _ _ _ _ _ hc] at hb
      cases hb

/-- In tick mode, every tick the loop delivers to the data client sits inside
its own handling block: the execution-client delivery, then all strategy
callbacks for the tick's timestamp, then the data-client delivery, in that
order. -/
theorem runTraceLoop_tick_exec_first (sids : List Nat) (stop step : Nat) :
    ∀ n time ticks ebars dbars, stop + 1 - time = n →
      ∀ t : Tick,
        Action.dataTick t ∈ runTraceLoop true sids ticks ebars dbars time stop step →
        ∃ pre post, runTraceLoop true sids ticks ebars dbars time stop step =
          pre ++ Action.execTick t ::
            (sids.map (fun s => Action.strategyIterate s t.timestamp) ++
              Action.dataTick t :: post) := by
  intro n
  induction n using Nat.strong_induction_on with
  | _ n ih =>
    intro time ticks ebars dbars hn t ht
    by_cases hc : time ≤ stop ∧ 0 < step
    · rw [runTraceLoop_step_tick _ _ _ _ _ _ _ hc.1 hc.2] at ht ⊢
      rcases List.mem_append.mp ht with hbl | hrest
      · obtain ⟨l, hl, hal⟩ := List.mem_flatten.mp hbl
        obtain ⟨t', ht', rfl⟩ := List.mem_map.mp hl
        obtain rfl := dataTick_eq_of_mem_tickBlock true sids t t' hal
        obtain ⟨s1, s2, hdec⟩ := List.append_of_mem ht'
        refine ⟨(s1.map (tickBlock true sids)).flatten ++ [Action.clockSet t.timestamp],
          (s2.map (tickBlock true sids)).flatten ++
            (Action.clockSet time ::
              Action.dataBars (dbars.takeWhile (fun b => b.timestamp ≤ time)) ::
              runTraceLoop true sids (ticks.dropWhile (fun x => x.timestamp ≤ time)) ebars
                (dbars.dropWhile (fun b => b.timestamp ≤ time)) (time + step) stop step),
          ?_⟩
        rw [hdec]
        simp [tickBlock]
      · rcases List.mem_cons.mp hrest with h1 | hrest2
        · simp at h1
        rcases List.mem_cons.mp hrest2 with h2 | hrec
        · simp at h2
        · obtain ⟨pre, post, hdec⟩ := ih (stop + 1 - (time + step)) (by omega)
            (time + step) (ticks.dropWhile (fun x => x.timestamp ≤ time)) ebars
            (dbars.dropWhile (fun b => b.timestamp ≤ time)) rfl t hrec
          refine ⟨((ticks.takeWhile (fun x => x.timestamp ≤ time)).map
              (tickBlock true sids)).flatten ++
            Action.clockSet time ::
              Action.dataBars (dbars.takeWhile (fun b => b.timestamp ≤ time)) :: pre,
            post, ?_⟩
          rw [hdec]
          simp
    · rw [runTraceLoop_stop _ _ _ _ _ _ _ _ hc] at ht
      cases ht

/-- In bar mode, every minute bar the loop delivers to the execution client is
delivered before any strategy callback whose timestamp is not strictly
earlier than the bar's. -/
theorem runTraceLoop_execBars_before_strategies (sids : List Nat) (stop step : Nat) :
    ∀ n time ticks ebars dbars, stop + 1 - time = n →
      ebars.Pairwise (fun x y => x.timestamp ≤ y.timestamp) →
      ∀ b : Bar,
        Action.execBars b ∈ runTraceLoop false sids ticks ebars dbars time stop step →
        ∃ pre post, runTraceLoop false sids ticks ebars dbars time stop step =
          pre ++ Action.execBars b :: post ∧
          ∀ sid ts, Action.strategyIterate sid ts ∈ pre → ts < b.timestamp := by
  intro n
  induction n using Nat.strong_induction_on with
  | _ n ih =>
    intro time ticks ebars dbars hn hsort b hb
    by_cases hc : time ≤ stop ∧ 0 < step
    · rw [runTraceLoop_step_bar _ _ _ _ _ _ _ hc.1 hc.2] at hb ⊢
      rcases List.mem_append.mp hb with hpre | hrest
      · obtain ⟨b', hb', heq⟩ := List.mem_map.mp hpre
        obtain rfl : b' = b := by simpa using heq
        obtain ⟨s1, s2, hdec⟩ := List.append_of_mem hb'
        refine ⟨s1.map Action.execBars,
          s2.map Action.execBars ++
            (((ticks.takeWhile (fun x => x.timestamp ≤ time)).map
              (tickBlock false sids)).flatten ++
              (Action.clockSet time ::
                Action.dataBars (dbars.takeWhile (fun x => x.timestamp ≤ time)) ::
                runTraceLoop false sids (ticks.dropWhile (fun x => x.timestamp ≤ time))
                  (ebars.dropWhile (fun x => x.timestamp ≤ time))
                  (dbars.dropWhile (fun x => x.timestamp ≤ time)) (time + step) stop
                  step)), ?_, ?_⟩
        · rw [hdec]
          simp
        · intro sid ts hmem
          obtain ⟨x, hx, hxe⟩ := List.mem_map.mp hmem
          simp at hxe
      · rcases List.mem_append.mp hrest with hbl | hr
        · obtain ⟨l, hl, hal⟩ := List.mem_flatten.mp hbl
          obtain ⟨t', ht', rfl⟩ := List.mem_map.mp hl
          have := tickBlock_not_execBars false sids t' _ hal
          simp [isExecBarsAct] at this
        · rcases List.mem_cons.mp hr with h1 | hr2
          · simp at h1
          rcases List.mem_cons.mp hr2 with h2 | hrec
          · simp at h2
          · have hsort2 : (ebars.dropWhile (fun x => x.timestamp ≤ time)).Pairwise
                (fun x y => x.timestamp ≤ y.timestamp) :=
              hsort.sublist (List.dropWhile_sublist _)
            obtain ⟨pre, post, hdec, hprop⟩ := ih (stop + 1 - (time + step)) (by omega)
              (time + step) (ticks.dropWhile (fun x => x.timestamp ≤ time))
              (ebars.dropWhile (fun x => x.timestamp ≤ time))
              (dbars.dropWhile (fun x => x.timestamp ≤ time)) rfl hsort2 b hrec
            have hbmem : b ∈ ebars.dropWhile (fun x => x.timestamp ≤ time) :=
              runTraceLoop_execBars_mem sids stop step (stop + 1 - (time + step))
                (time + step) _ _ _ rfl b hrec
            have hbts : time < b.timestamp :=
              mem_dropWhile_le_of_sorted (fun x => x.timestamp) time ebars hsort b hbmem
            refine ⟨(ebars.takeWhile (fun x => x.timestamp ≤ time)).map Action.execBars ++
              (((ticks.takeWhile (fun x => x.timestamp ≤ time)).map
                (tickBlock false sids)).flatten ++
                (Action.clockSet time ::
                  Action.dataBars (dbars.takeWhile (fun x => x.timestamp ≤ time)) ::
                  pre)), post, ?_, ?_⟩
            · rw [hdec]
              simp
            · intro sid ts hmem
              rcases List.mem_append.mp hmem with hm1 | hm2
              · obtain ⟨x, hx, hxe⟩ := List.mem_map.mp hm1
                simp at hxe
              rcases List.mem_append.mp hm2 with hm3 | hm4
              · obtain ⟨l, hl, hal⟩ := List.mem_flatten.mp hm3
                obtain ⟨t', ht', rfl⟩ := List.mem_map.mp hl
                obtain rfl := strategyIterate_ts_of_mem_tickBlock false sids t' sid ts hal
                have : t'.timestamp ≤ time := by
                  simpa using List.mem_takeWhile_imp ht'
                omega
              · rcases List.mem_cons.mp hm4 with h5 | hm6
                · simp at h5
                rcases List.mem_cons.mp hm6 with h6 | hm7
                · simp at h6
                · exact hprop sid ts hm7
    · rw [runTraceLoop_stop _ _ _ _ _ _ _ _ hc] at hb
      cases hb

/-- C3: in every iteration of the main loop each due market event is handed
to the execution client before the strategy callbacks for that event run.  In
tick mode, every tick delivered to the data client (the point at which it
becomes observable to strategies) sits in a block whose execution-client
delivery precedes all the strategy callbacks of that tick's timestamp and the
data delivery itself.  In bar mode, every minute bar delivered to the
execution client precedes every strategy callback whose timestamp is not
strictly earlier than the bar's (all callbacks at or after the bar's
timestamp come later in the trace). -/
theorem market_event_exec_before_strategies (sids : List Nat) (ticks : List Tick)
    (ebars dbars : List Bar) (start stop step : Nat) (t : Tick) (b : Bar)
    (hsort : ebars.Pairwise (fun x y => x.timestamp ≤ y.timestamp))
    (htk : Action.dataTick t ∈ runTraceLoop true sids ticks ebars dbars start stop step)
    (hbr : Action.execBars b ∈
      runTraceLoop false sids ticks ebars dbars start stop step) :
    (∃ pre post, runTraceLoop true sids ticks ebars dbars start stop step =
        pre ++ Action.execTick t ::
          (sids.map (fun s => Action.strategyIterate s t.timestamp) ++
            Action.dataTick t :: post)) ∧
      (∃ pre post, runTraceLoop false sids ticks ebars dbars start stop step =
          pre ++ Action.execBars b :: post ∧
          ∀ sid ts, Action.strategyIterate sid ts ∈ pre → ts < b.timestamp) := by
  constructor
  · exact runTraceLoop_tick_exec_first sids stop step (stop + 1 - start) start ticks
      ebars dbars rfl t htk
  · exact runTraceLoop_execBars_before_strategies sids stop step (stop + 1 - start)
      start ticks ebars dbars rfl hsort b hbr

/-- Witness for C3 on concrete data: one tick and one bar at timestamp 55 in
a run over `[50, 60]` with step 10; both hypotheses hold and the exec-first
decompositions follow. -/
theorem market_event_exec_before_strategies_witness :
    (([⟨0, 100, 55⟩] : List Bar).Pairwise (fun x y => x.timestamp ≤ y.timestamp) ∧
      Action.dataTick ⟨0, 99, 100, 55⟩ ∈
        runTraceLoop true [0] [⟨0, 99, 100, 55⟩] [⟨0, 100, 55⟩] [⟨0, 100, 55⟩]
          50 60 10 ∧
      Action.execBars ⟨0, 100, 55⟩ ∈
        runTraceLoop false [0] [⟨0, 99, 100, 55⟩] [⟨0, 100, 55⟩] [⟨0, 100, 55⟩]
          50 60 10) ∧
      ((∃ pre post, runTraceLoop true [0] [⟨0, 99, 100, 55⟩] [⟨0, 100, 55⟩]
          [⟨0, 100, 55⟩] 50 60 10 =
          pre ++ Action.execTick ⟨0, 99, 100, 55⟩ ::
            (([0] : List Nat).map (fun s => Action.strategyIterate s
              (Tick.timestamp ⟨0, 99, 100, 55⟩)) ++
              Action.dataTick ⟨0, 99, 100, 55⟩ :: post)) ∧
        (∃ pre post, runTraceLoop false [0] [⟨0, 99, 100, 55⟩] [⟨0, 100, 55⟩]
            [⟨0, 100, 55⟩] 50 60 10 =
            pre ++ Action.execBars ⟨0, 100, 55⟩ :: post ∧
            ∀ sid ts, Action.strategyIterate sid ts ∈ pre →
              ts < Bar.timestamp ⟨0, 100, 55⟩)) := by
  have htk : Action.dataTick ⟨0, 99, 100, 55⟩ ∈
      runTraceLoop true [0] [⟨0, 99, 100, 55⟩] [⟨0, 100, 55⟩] [⟨0, 100, 55⟩]
        50 60 10 := by
    rw [runTraceLoop_step_tick _ _ _ _ _ _ _ (by decide) (by decide),
      runTraceLoop_step_tick _ _ _ _ _ _ _ (by decide) (by decide),
      runTraceLoop_stop _ _ _ _ _ _ _ _ (by decide)]
    decide
  have hbr : Action.execBars ⟨0, 100, 55⟩ ∈
      runTraceLoop false [0] [⟨0, 99, 100, 55⟩] [⟨0, 100, 55⟩] [⟨0, 100, 55⟩]
        50 60 10 := by
    rw [runTraceLoop_step_bar _ _ _ _ _ _ _ (by decide) (by decide),
      runTraceLoop_step_bar _ _ _ _ _ _ _ (by decide) (by decide),
      runTraceLoop_stop _ _ _ _ _ _ _ _ (by decide)]
    decide
  exact ⟨⟨by decide, htk, hbr⟩,
    market_event_exec_before_strategies [0] [⟨0, 99, 100, 55⟩] [⟨0, 100, 55⟩]
      [⟨0, 100, 55⟩] 50 60 10 ⟨0, 99, 100, 55⟩ ⟨0, 100, 55⟩ (by decide) htk hbr⟩

/-- Strategy callbacks carry no clock assignment. -/
theorem clockTimesOf_strategyIterates (ts : Nat) :
    ∀ sids : List Nat,
      clockTimesOf (sids.map (fun s => Action.strategyIterate s ts)) = [] := by
  intro sids
  induction sids with
  | nil => rfl
  | cons s sids ih => simpa [clockTimesOf] using ih

/-- Bar deliveries to the execution client carry no clock assignment. -/
theorem clockTimesOf_execBars :
    ∀ l : List Bar, clockTimesOf (l.map Action.execBars) = [] := by
  intro l
  induction l with
  | nil => rfl
  | cons b l ih => simpa [clockTimesOf] using ih

/-- One tick block assigns the clock exactly once, to the tick's timestamp. -/
theorem clockTimesOf_tickBlock (u : Bool) (sids : List Nat) (t : Tick) :
    clockTimesOf (tickBlock u sids t) = [t.timestamp] := by
  have h := clockTimesOf_strategyIterates t.timestamp sids
  cases u <;>
    simp [tickBlock, clockTimesOf, List.filterMap_append] <;>
    simpa [clockTimesOf] using h

/-- The clock assignments of a run of tick blocks are the tick timestamps in
order. -/
theorem clockTimesOf_blocks (u : Bool) (sids : List Nat) :
    ∀ l : List Tick,
      clockTimesOf ((l.map (tickBlock u sids)).flatten) =
        l.map (fun t => t.timestamp) := by
  intro l
  induction l with
  | nil => rfl
  | cons t l ih =>
    simp only [List.map_cons, List.flatten_cons]
    rw [clockTimesOf, List.filterMap_append, ← clockTimesOf, ← clockTimesOf,
      clockTimesOf_tickBlock, ih]
    rfl

/-- Chaining a sorted run of values bounded between `prev` and `time` onto a
chain starting at `time`. -/
theorem chain_le_cons_append (tail : List Nat) (time : Nat) :
    ∀ (xs : List Nat) (prev : Nat), xs.Pairwise (· ≤ ·) → (∀ x ∈ xs, prev ≤ x) →
      (∀ x ∈ xs, x ≤ time) → prev ≤ time → List.Chain' (· ≤ ·) (time :: tail) →
      List.Chain' (· ≤ ·) (prev :: (xs ++ time :: tail)) := by
  intro xs
  induction xs with
  | nil =>
    intro prev _ _ _ hpt hc
    exact List.chain'_cons.mpr ⟨hpt, hc⟩
  | cons x xs ih =>
    intro prev hp hge hle hpt hc
    have tailChain := ih x hp.of_cons
      (fun y hy => (List.pairwise_cons.mp hp).1 y hy)
      (fun y hy => hle y (List.mem_cons_of_mem x hy))
      (hle x (List.mem_cons_self x xs)) hc
    exact List.chain'_cons.mpr ⟨hge x (List.mem_cons_self x xs), tailChain⟩

/-- Starting from any clock value `prev` dominated by the loop entry time and
by every remaining tick, the clock assignments of the main loop are
non-decreasing provided the tick series is sorted. -/
theorem runTraceLoop_clockTimes_chain (u : Bool) (sids : List Nat) (stop step : Nat) :
    ∀ n time prev ticks ebars dbars, stop + 1 - time = n →
      ticks.Pairwise (fun x y => x.timestamp ≤ y.timestamp) →
      (∀ t ∈ ticks, prev ≤ t.timestamp) → prev ≤ time →
      List.Chain' (· ≤ ·)
        (prev :: clockTimesOf (runTraceLoop u sids ticks ebars dbars time stop step)) := by
  intro n
  induction n using Nat.strong_induction_on with
  | _ n ih =>
    intro time prev ticks ebars dbars hn hsort hge hpt
    by_cases hc : time ≤ stop ∧ 0 < step
    · rw [runTraceLoop_step _ _ _ _ _ _ _ _ hc.1 hc.2]
      have hpreClock : clockTimesOf
          ((if u then [] else
            (ebars.takeWhile (fun b => b.timestamp ≤ time)).map Action.execBars) :
            List Action) = [] := by
        cases u
        · exact clockTimesOf_execBars _
        · rfl
      rw [clockTimesOf, List.filterMap_append, List.filterMap_append, ← clockTimesOf,
        ← clockTimesOf, ← clockTimesOf, hpreClock, List.nil_append,
        clockTimesOf_blocks]
      have hrec := ih (stop + 1 - (time + step)) (by omega) (time + step) time
        (ticks.dropWhile (fun t => t.timestamp ≤ time))
        (if u then ebars else ebars.dropWhile (fun b => b.timestamp ≤ time))
        (dbars.dropWhile (fun b => b.timestamp ≤ time)) rfl
        (hsort.sublist (List.dropWhile_sublist _))
        (fun t ht => Nat.le_of_lt
          (mem_dropWhile_le_of_sorted (fun x => x.timestamp) time ticks hsort t ht))
        (Nat.le_add_right time step)
      have hxs : ∀ x ∈ (ticks.takeWhile
          (fun t => t.timestamp ≤ time)).map (fun t => t.timestamp), prev ≤ x := by
        intro x hx
        obtain ⟨t, ht, rfl⟩ := List.mem_map.mp hx
        exact hge t ((List.takeWhile_sublist _).subset ht)
      have hxs2 : ∀ x ∈ (ticks.takeWhile
          (fun t => t.timestamp ≤ time)).map (fun t => t.timestamp), x ≤ time := by
        intro x hx
        obtain ⟨t, ht, rfl⟩ := List.mem_map.mp hx
        simpa using List.mem_takeWhile_imp ht
      have hxsort : ((ticks.takeWhile (fun t => t.timestamp ≤ time)).map
          (fun t => t.timestamp)).Pairwise (· ≤ ·) := by
        exact (List.pairwise_map.mpr (hsort.sublist (List.takeWhile_sublist _)))
      exact chain_le_cons_append _ time _ prev hxsort hxs hxs2 hpt
        (by simpa [clockTimesOf] using hrec)
    · rw [runTraceLoop_stop _ _ _ _ _ _ _ _ hc]
      exact List.chain'_singleton prev

/-- C4 as amended: within a single run — the setup assignment of the test
clock to `start` (engine.pyx line 207), the assignment inside
`set_initial_iteration`, and every assignment of the main loop — consecutive
test-clock assignments never decrease, provided the tick series is sorted
(spec section 4.2: the input series are pre-validated sorted). -/
theorem clock_monotone_within_run (e : Engine) (start stop step : Nat)
    (hsort : e.dataClient.ticks.Pairwise (fun x y => x.timestamp ≤ y.timestamp)) :
    List.Chain' (· ≤ ·) (clockTimesOf (e.runTrace start stop step)) := by
  show List.Chain' (· ≤ ·) (start :: start :: clockTimesOf
    (runTraceLoop (e.dataClient.setInitialIteration start).use_ticks
      (e.strategies.map (fun s => s.sid))
      (e.dataClient.setInitialIteration start).ticks
      (e.dataClient.setInitialIteration start).execBars
      (e.dataClient.setInitialIteration start).dataBars start stop step))
  refine List.chain'_cons.mpr ⟨Nat.le_refl start, ?_⟩
  exact runTraceLoop_clockTimes_chain _ _ stop step (stop + 1 - start) start start _ _ _
    rfl (hsort.sublist (List.dropWhile_sublist _))
    (fun t ht => mem_dropWhile_lt_of_sorted (fun x => x.timestamp) start
      e.dataClient.ticks hsort t
      (show t ∈ e.dataClient.ticks.dropWhile (fun x => x.timestamp < start) from ht))
    (Nat.le_refl start)

/-- Witness for the amended C4 on the concrete tick fixture. -/
theorem clock_monotone_within_run_witness :
    ((mkEngine [0] [⟨0, 99, 100, 55⟩] [⟨0, 100, 50⟩, ⟨0, 101, 60⟩] [0] ⟨3, 0⟩
        ⟨10000, 0, 0⟩ 100).dataClient.ticks.Pairwise
          (fun x y => x.timestamp ≤ y.timestamp)) ∧
      List.Chain' (· ≤ ·) (clockTimesOf
        ((mkEngine [0] [⟨0, 99, 100, 55⟩] [⟨0, 100, 50⟩, ⟨0, 101, 60⟩] [0] ⟨3, 0⟩
          ⟨10000, 0, 0⟩ 100).runTrace 50 60 10)) := by
  refine ⟨by decide, ?_⟩
  exact clock_monotone_within_run
    (mkEngine [0] [⟨0, 99, 100, 55⟩] [⟨0, 100, 50⟩, ⟨0, 101, 60⟩] [0] ⟨3, 0⟩
      ⟨10000, 0, 0⟩ 100) 50 60 10 (by decide)

/-- C4 as stated is false: the clock is not monotonic over the whole engine
lifetime.  Construction sets the test clock to the wall-clock time (here 100,
engine.pyx line 81); the run-setup assignment then moves it back to the
historical start 50, a decrease between consecutive assignments. -/
theorem clock_monotonic_lifetime_counterexample :
    ¬ List.Chain' (· ≤ ·)
      ((mkEngine [0] [] [⟨0, 100, 50⟩, ⟨0, 101, 60⟩] [0] ⟨3, 0⟩ ⟨10000, 0, 0⟩
        100).lifetimeClockAssignments 50 60 10) := by
  intro h
  have heq : (mkEngine [0] [] [⟨0, 100, 50⟩, ⟨0, 101, 60⟩] [0] ⟨3, 0⟩ ⟨10000, 0, 0⟩
      100).lifetimeClockAssignments 50 60 10 =
      100 :: 50 :: 50 :: clockTimesOf (runTraceLoop false [0] []
        [⟨0, 100, 50⟩, ⟨0, 101, 60⟩] [⟨0, 100, 50⟩, ⟨0, 101, 60⟩] 50 60 10) := rfl
  rw [heq] at h
  exact absurd (List.chain'_cons.mp h).1 (by decide)

/-- Fresh strategy clocks are allocated at or beyond the allocation cursor. -/
theorem mkStrategyRecs_clockId_ge :
    ∀ (sids : List Nat) (next : Nat), ∀ r ∈ mkStrategyRecs sids next,
      next ≤ r.clockId := by
  intro sids
  induction sids with
  | nil =>
    intro next r hr
    cases hr
  | cons s rest ih =>
    intro next r hr
    rcases List.mem_cons.mp hr with rfl | hr2
    · exact Nat.le_refl next
    · exact Nat.le_of_succ_le (ih (next + 1) r hr2)

/-- Replacing strategy clocks preserves the strategy identifiers. -/
theorem mkStrategyRecs_map_sid :
    ∀ (sids : List Nat) (next : Nat),
      (mkStrategyRecs sids next).map (fun s => s.sid) = sids := by
  intro sids
  induction sids with
  | nil => intro next; rfl
  | cons s rest ih =>
    intro next
    simp [mkStrategyRecs, ih]

/-- A run leaves the engine's test-clock identity unchanged and leaves the
strategies holding freshly allocated clocks (allocated from cursor 2 at
construction, reallocated from the next cursor at run setup). -/
theorem run_strategies_clock_alloc (ins : List Nat) (ticks : List Tick)
    (bars : List Bar) (sids : List Nat) (fm : FillModel) (cfg : BacktestConfig)
    (w start stop step : Nat) (fm? : Option FillModel)
    (orders : Nat → Nat → List Order) (r : Nat) :
    ((mkEngine ins ticks bars sids fm cfg w).run start stop step fm? orders
        r).1.testClockId = (mkEngine ins ticks bars sids fm cfg w).testClockId ∧
      (((mkEngine ins ticks bars sids fm cfg w).run start stop step fm? orders
          r).1.strategies = mkStrategyRecs sids 2 ∨
        ((mkEngine ins ticks bars sids fm cfg w).run start stop step fm? orders
          r).1.strategies = mkStrategyRecs sids (2 + sids.length)) := by
  have hsucc : mkStrategyRecs ((mkStrategyRecs sids 2).map (fun s => s.sid))
      (2 + sids.length) = mkStrategyRecs sids (2 + sids.length) := by
    rw [mkStrategyRecs_map_sid]
  by_cases h1 : start < stop
  · by_cases h2 : (mkEngine ins ticks bars sids fm cfg
        w).dataClient.minuteIndex.headD 0 ≤ start
    · by_cases h3 : stop ≤ (mkEngine ins ticks bars sids fm cfg
          w).dataClient.minuteIndex.getLastD 0
      · unfold Engine.run
        rw [if_neg (by omega), if_neg (by omega), if_neg (by omega)]
        exact ⟨rfl, Or.inr hsucc⟩
      · unfold Engine.run
        rw [if_neg (by omega), if_neg (by omega), if_pos (by omega)]
        exact ⟨rfl, Or.inl rfl⟩
    · unfold Engine.run
      rw [if_neg (by omega), if_pos (by omega)]
      exact ⟨rfl, Or.inl rfl⟩
  · unfold Engine.run
    rw [if_pos (by omega)]
    exact ⟨rfl, Or.inl rfl⟩

/-- C7 as amended: the data client, execution client and portfolio are all
built against the single engine-owned test clock (id 1), and every strategy
holds a virtual `TestClock` — never the wall `LiveClock` (id 0) — but
deliberately a fresh separate instance per strategy rather than the engine's
clock (engine.pyx line 137: "Replace strategies clocks with test clocks",
line 138 comment: "Separate test clocks to iterate independently"), both at
construction and after the run-setup replacement. -/
theorem component_clocks_single_virtual_source (ins : List Nat) (ticks : List Tick)
    (bars : List Bar) (sids : List Nat) (fm : FillModel) (cfg : BacktestConfig)
    (w start stop step : Nat) (fm? : Option FillModel)
    (orders : Nat → Nat → List Order) (r : Nat) (s s' : StrategyRec)
    (hs : s ∈ (mkEngine ins ticks bars sids fm cfg w).strategies)
    (hs' : s' ∈ ((mkEngine ins ticks bars sids fm cfg w).run start stop step fm?
      orders r).1.strategies) :
    (mkEngine ins ticks bars sids fm cfg w).dataClient.clockId =
        (mkEngine ins ticks bars sids fm cfg w).testClockId ∧
      (mkEngine ins ticks bars sids fm cfg w).execClient.clockId =
        (mkEngine ins ticks bars sids fm cfg w).testClockId ∧
      (mkEngine ins ticks bars sids fm cfg w).portfolioClockId =
        (mkEngine ins ticks bars sids fm cfg w).testClockId ∧
      s.clockId ≠ wallClockId ∧
      s.clockId ≠ (mkEngine ins ticks bars sids fm cfg w).testClockId ∧
      s'.clockId ≠ wallClockId ∧
      s'.clockId ≠ ((mkEngine ins ticks bars sids fm cfg w).run start stop step fm?
        orders r).1.testClockId := by
  have h2 : 2 ≤ s.clockId := mkStrategyRecs_clockId_ge sids 2 s hs
  have halloc := run_strategies_clock_alloc ins ticks bars sids fm cfg w start stop
    step fm? orders r
  have h2' : 2 ≤ s'.clockId := by
    rcases halloc.2 with heq | heq
    · exact mkStrategyRecs_clockId_ge sids 2 s' (heq ▸ hs')
    · have := mkStrategyRecs_clockId_ge sids (2 + sids.length) s' (heq ▸ hs')
      omega
  refine ⟨rfl, rfl, rfl, ?_, ?_, ?_, ?_⟩
  · show s.clockId ≠ 0
    omega
  · show s.clockId ≠ 1
    omega
  · show s'.clockId ≠ 0
    omega
  · rw [halloc.1]
    show s'.clockId ≠ 1
    omega

/-- Witness for the amended C7: on the one-strategy fixture the strategy's
clock id is 2 at construction and 3 after the run, never the wall clock 0 nor
the engine test clock 1. -/
theorem component_clocks_single_virtual_source_witness :
    ((⟨0, 2⟩ : StrategyRec) ∈ (mkEngine [0] [] [⟨0, 100, 50⟩, ⟨0, 101, 60⟩] [0]
        ⟨3, 0⟩ ⟨10000, 0, 0⟩ 100).strategies ∧
      (⟨0, 3⟩ : StrategyRec) ∈ ((mkEngine [0] [] [⟨0, 100, 50⟩, ⟨0, 101, 60⟩] [0]
        ⟨3, 0⟩ ⟨10000, 0, 0⟩ 100).run 50 60 10 none (fun _ _ => [])
          200).1.strategies) ∧
      ((mkEngine [0] [] [⟨0, 100, 50⟩, ⟨0, 101, 60⟩] [0] ⟨3, 0⟩ ⟨10000, 0, 0⟩
          100).dataClient.clockId =
        (mkEngine [0] [] [⟨0, 100, 50⟩, ⟨0, 101, 60⟩] [0] ⟨3, 0⟩ ⟨10000, 0, 0⟩
          100).testClockId ∧
        (⟨0, 2⟩ : StrategyRec).clockId ≠ wallClockId ∧
        (⟨0, 2⟩ : StrategyRec).clockId ≠ (mkEngine [0] [] [⟨0, 100, 50⟩, ⟨0, 101, 60⟩]
          [0] ⟨3, 0⟩ ⟨10000, 0, 0⟩ 100).testClockId) := by
  have hs : (⟨0, 2⟩ : StrategyRec) ∈ (mkEngine [0] [] [⟨0, 100, 50⟩, ⟨0, 101, 60⟩]
      [0] ⟨3, 0⟩ ⟨10000, 0, 0⟩ 100).strategies := by decide
  have hseq : ((mkEngine [0] [] [⟨0, 100, 50⟩, ⟨0, 101, 60⟩] [0] ⟨3, 0⟩
      ⟨10000, 0, 0⟩ 100).run 50 60 10 none (fun _ _ => []) 200).1.strategies =
      mkStrategyRecs [0] 3 := by
    unfold Engine.run
    rw [if_neg (by decide), if_neg (by decide), if_neg (by decide)]
    rfl
  have hs' : (⟨0, 3⟩ : StrategyRec) ∈ ((mkEngine [0] [] [⟨0, 100, 50⟩, ⟨0, 101, 60⟩]
      [0] ⟨3, 0⟩ ⟨10000, 0, 0⟩ 100).run 50 60 10 none (fun _ _ => [])
        200).1.strategies := by
    rw [hseq]
    decide
  have h := component_clocks_single_virtual_source [0] [] [⟨0, 100, 50⟩, ⟨0, 101, 60⟩]
    [0] ⟨3, 0⟩ ⟨10000, 0, 0⟩ 100 50 60 10 none (fun _ _ => []) 200 ⟨0, 2⟩ ⟨0, 3⟩ hs hs'
  exact ⟨⟨hs, hs'⟩, h.1, h.2.2.2.1, h.2.2.2.2.1⟩

/-- C7 as stated is false: each strategy's clock is not the engine's test
clock instance — construction gives every strategy its own fresh `TestClock`
(engine.pyx line 138). -/
theorem strategy_shares_engine_clock_counterexample :
    ¬ (∀ s ∈ (mkEngine [0] [] [⟨0, 100, 50⟩, ⟨0, 101, 60⟩] [0] ⟨3, 0⟩ ⟨10000, 0, 0⟩
        100).strategies,
        s.clockId = (mkEngine [0] [] [⟨0, 100, 50⟩, ⟨0, 101, 60⟩] [0] ⟨3, 0⟩
          ⟨10000, 0, 0⟩ 100).testClockId) := by
  decide

end NT
